import Mathlib

/-!
Verification development for the Andhra cultural guide core: a shallow
embedding of the knowledge-base parser (ProductMdParser), the record
validators (DataValidator), the store (CulturalDatabaseImpl), the
closest-match heuristic (ErrorHandler), the mood-to-dish mapper
(EmotionFoodMapperImpl) and the response formatter (ResponseFormatter),
together with theorems settling the specification claims.

JavaScript strings are modelled as Lean `String` (operating on their
`List Char` data); `null`/`undefined` results are modelled as `Option`;
JS `Map` objects are modelled as insertion-ordered association lists with
set-replaces-in-place semantics. Regex operations of the source are
modelled as explicit character scans with the same matching semantics.
-/

set_option autoImplicit false

namespace AG

/-! ### Character classes (JS regex `\s`, `\w`, `[a-z]`, `[A-Z]`) -/

def isWsChar (c : Char) : Bool :=
  c = ' ' || c = '\t' || c = '\n' || c = '\r' || c = '\x0b' || c = '\x0c'

def isWordChar (c : Char) : Bool :=
  c.isAlphanum || c = '_'

/-! ### String primitives mirroring JS string methods -/

/-- Model of JS `String.prototype.toLowerCase` (ASCII range). -/
def jsToLower (s : String) : String :=
  ⟨s.data.map Char.toLower⟩

def isPrefixOfCL : List Char → List Char → Bool
  | [], _ => true
  | _ :: _, [] => false
  | p :: ps, c :: cs => p = c && isPrefixOfCL ps cs

def isInfixOfCL (pat : List Char) : List Char → Bool
  | [] => pat.isEmpty
  | c :: rest => isPrefixOfCL pat (c :: rest) || isInfixOfCL pat rest

/-- Model of JS `String.prototype.includes`. -/
def strContains (s sub : String) : Bool :=
  isInfixOfCL sub.data s.data

/-- Model of JS `String.prototype.startsWith`. -/
def strStartsWith (s pre : String) : Bool :=
  isPrefixOfCL pre.data s.data

/-- Model of JS `String.prototype.endsWith` for a single-character suffix. -/
def strEndsWithChar (s : String) (c : Char) : Bool :=
  s.data.getLast? = some c

/-- Model of JS `String.prototype.trim` (whitespace at both ends). -/
def jsTrimCL (l : List Char) : List Char :=
  ((l.dropWhile isWsChar).reverse.dropWhile isWsChar).reverse

def jsTrim (s : String) : String :=
  ⟨jsTrimCL s.data⟩

/-- Splitter for JS `String.prototype.split` with a non-empty separator
(`s0 :: srest`): split at every non-overlapping leftmost occurrence. A positive
`skip` consumes the remaining characters of a matched separator. -/
def splitOnCLAux (s0 : Char) (srest : List Char) : Nat → List Char → List (List Char)
  | 0, [] => [[]]
  | 0, c :: rest =>
    if isPrefixOfCL (s0 :: srest) (c :: rest) then
      [] :: splitOnCLAux s0 srest srest.length rest
    else
      match splitOnCLAux s0 srest 0 rest with
      | [] => [[c]]
      | h :: tl => (c :: h) :: tl
  | _ + 1, [] => [[]]
  | skip + 1, _ :: rest => splitOnCLAux s0 srest skip rest

/-- Model of JS `String.prototype.split` with a string separator (the empty
separator is never used by the source; it maps to the identity split here). -/
def jsSplit (s sep : String) : List String :=
  match sep.data with
  | [] => [s]
  | s0 :: srest => (splitOnCLAux s0 srest 0 s.data).map String.mk

/-- Model of JS `s[0]`: the first character, or `undefined` on an empty string. -/
def jsCharAt0 (s : String) : Option Char :=
  s.data.head?

/-- Model of JS `===` on two `s[0]` results: `undefined === undefined` is true. -/
def jsCharEq : Option Char → Option Char → Bool
  | some a, some b => a = b
  | none, none => true
  | _, _ => false

/-- Model of JS `charAt(0).toUpperCase() + slice(1)` (empty string maps to itself). -/
def capitalizeFirst (s : String) : String :=
  match s.data with
  | [] => s
  | c :: rest => ⟨c.toUpper :: rest⟩

/-! ### JS `Map` model: insertion-ordered association list -/

/-- JS truthiness of an optional string (`undefined` and `''` are falsy). -/
def jsTruthyStr : Option String → Bool
  | some s => s != ""
  | none => false

/-- Model of `x || d` for an optional string field. -/
def jsOrDefault (o : Option String) (d : String) : String :=
  match o with
  | some s => if s != "" then s else d
  | none => d

/-- Model of JS `Map.prototype.set`: replace in place if the key exists, else append. -/
def jsMapSet {α : Type} : List (String × α) → String → α → List (String × α)
  | [], k, v => [(k, v)]
  | (k1, v1) :: rest, k, v =>
    if k1 = k then (k, v) :: rest else (k1, v1) :: jsMapSet rest k v

/-- Model of JS `Map.prototype.get` (`undefined` on a missing key becomes `none`). -/
def jsMapGet {α : Type} : List (String × α) → String → Option α
  | [], _ => none
  | (k1, v1) :: rest, k => if k1 = k then some v1 else jsMapGet rest k

/-- Model of the `if (!map.has(k)) map.set(k, []); map.get(k).push(v)` idiom. -/
def jsMapPush {α : Type} : List (String × List α) → String → α → List (String × List α)
  | [], k, v => [(k, [v])]
  | (k1, l1) :: rest, k, v =>
    if k1 = k then (k1, l1 ++ [v]) :: rest else (k1, l1) :: jsMapPush rest k v

/-! ### Data model (types.ts records, string-typed as in the parsed JS data) -/

structure RegionalVariation where
  region : String
  variation : String
deriving Repr, DecidableEq

structure SlangInfo where
  term : String
  literalMeaning : String
  emotionalIntent : String
  socialAppropriateness : String
  formalityLevel : String
  regionalVariations : List RegionalVariation
deriving Repr, DecidableEq

structure FoodInfo where
  name : String
  city : String
  spiceLevel : String
  bestTime : String
  description : String
  culturalSignificance : String
deriving Repr, DecidableEq

structure FestivalInfo where
  name : String
  culturalMeaning : String
  associatedFoods : List String
  foodSymbolism : String
  emotionalTone : String
  regionalVariations : List RegionalVariation
deriving Repr, DecidableEq

structure EmotionFoodMapping where
  emotion : String
  recommendedFood : String
  emotionalLogic : String
  homeVsStreet : String
deriving Repr, DecidableEq

structure ParsedCulturalData where
  slang : List SlangInfo
  food : List FoodInfo
  festivals : List FestivalInfo
  emotions : List EmotionFoodMapping
deriving Repr, DecidableEq

structure ValidationResult where
  isValid : Bool
  errors : List String
deriving Repr, DecidableEq

/-! ### DataValidator (src/DataValidator.ts) -/

namespace DataValidator

/-- Model of the per-field check `!x[f] || typeof x[f] !== 'string' || x[f].trim() === ''`
(the `typeof` test is vacuous on the typed embedding). -/
def reqStr (s : String) : Bool :=
  s != "" && jsTrim s != ""

def validateSlangInfo (slang : SlangInfo) : Bool :=
  reqStr slang.term && reqStr slang.literalMeaning && reqStr slang.emotionalIntent &&
  reqStr slang.socialAppropriateness && reqStr slang.formalityLevel &&
  (slang.formalityLevel == "formal" || slang.formalityLevel == "informal") &&
  slang.regionalVariations.all (fun v => v.region != "" && v.variation != "")

def validateFoodInfo (food : FoodInfo) : Bool :=
  reqStr food.name && reqStr food.city && reqStr food.spiceLevel &&
  reqStr food.bestTime && reqStr food.description &&
  (food.spiceLevel == "low" || food.spiceLevel == "medium" ||
   food.spiceLevel == "high" || food.spiceLevel == "extreme") &&
  ["Morning", "Lunch", "Evening", "Any"].any (fun time => strContains food.bestTime time)

def validateFestivalInfo (festival : FestivalInfo) : Bool :=
  reqStr festival.name && reqStr festival.culturalMeaning &&
  reqStr festival.foodSymbolism && reqStr festival.emotionalTone &&
  !festival.associatedFoods.isEmpty &&
  festival.associatedFoods.all (fun food => jsTrim food != "") &&
  festival.regionalVariations.all (fun v => v.region != "" && v.variation != "")

def validateEmotionFoodMapping (mapping : EmotionFoodMapping) : Bool :=
  reqStr mapping.emotion && reqStr mapping.recommendedFood &&
  reqStr mapping.emotionalLogic && reqStr mapping.homeVsStreet &&
  (mapping.homeVsStreet == "home" || mapping.homeVsStreet == "street" ||
   mapping.homeVsStreet == "both") &&
  mapping.emotion == jsToLower mapping.emotion

def requiredEmotions : List String := ["sad", "sick", "happy", "angry", "tired"]

def requiredCities : List String := ["visakhapatnam", "vijayawada", "guntur", "tirupati"]

/-- Model of `validateDataCompleteness`. The source dedupes the provided city list
through a `Set` before the membership test; dedup does not change membership, so the
mapped list is used directly. -/
def validateDataCompleteness (data : ParsedCulturalData) : ValidationResult :=
  let errs1 : List String :=
    (if data.slang.isEmpty then ["No slang data provided"] else []) ++
    (if data.food.isEmpty then ["No food data provided"] else []) ++
    (if data.festivals.isEmpty then ["No festival data provided"] else []) ++
    (if data.emotions.isEmpty then ["No emotion-food mapping data provided"] else [])
  let providedEmotions := data.emotions.map (fun e => jsToLower e.emotion)
  let errs2 := requiredEmotions.filterMap (fun emotion =>
    if providedEmotions.contains emotion then none
    else some ("Missing required emotion mapping: " ++ emotion))
  let providedCities := data.food.map (fun f => jsToLower f.city)
  let errs3 := requiredCities.filterMap (fun city =>
    if providedCities.contains city then none
    else some ("Missing food data for required city: " ++ city))
  let errors := errs1 ++ errs2 ++ errs3
  { isValid := errors.isEmpty, errors := errors }

end DataValidator

/-! ### Regex-scan helpers used by the parser embedding

Each helper models one concrete regex of ProductMdParser.ts by an explicit
character scan with the same leftmost-match and backtracking behaviour. -/

/-- Case-insensitive prefix test (regex `i` flag on a literal pattern). -/
def isPrefixOfCLCI : List Char → List Char → Bool
  | [], _ => true
  | _ :: _, [] => false
  | p :: ps, c :: cs => p.toLower = c.toLower && isPrefixOfCLCI ps cs

/-- Remainder after the first (leftmost) occurrence of a literal pattern, or `none`. -/
def splitAtFirst (pat : List Char) : List Char → Option (List Char)
  | [] => if pat.isEmpty then some [] else none
  | c :: rest =>
    if isPrefixOfCL pat (c :: rest) then some ((c :: rest).drop pat.length)
    else splitAtFirst pat rest

/-- Case-insensitive variant of `splitAtFirst`. -/
def splitAtFirstCI (pat : List Char) : List Char → Option (List Char)
  | [] => if pat.isEmpty then some [] else none
  | c :: rest =>
    if isPrefixOfCLCI pat (c :: rest) then some ((c :: rest).drop pat.length)
    else splitAtFirstCI pat rest

/-- Lazy capture `([\s\S]*?)` up to the lookahead `(?=PAT|$)`: the prefix before the
first occurrence of `pat`, or the whole input when `pat` never occurs. -/
def lazyUntilPat (pat : List Char) : List Char → List Char
  | [] => []
  | c :: rest =>
    if isPrefixOfCL pat (c :: rest) then [] else c :: lazyUntilPat pat rest

/-- Remainder after the last (rightmost) case-insensitive occurrence of a pattern;
models the greedy `.*PAT` prefix of a `replace(/.*PAT\s*"/i, '')` call. -/
def afterLastCI (pat : List Char) : List Char → Option (List Char)
  | [] => if pat.isEmpty then some [] else none
  | c :: rest =>
    match afterLastCI pat rest with
    | some r => some r
    | none =>
      if isPrefixOfCLCI pat (c :: rest) then some ((c :: rest).drop pat.length)
      else none

def strStartsWithCI (s pre : String) : Bool :=
  isPrefixOfCLCI pre.data s.data

/-! ### ProductMdParser (src/ProductMdParser.ts) -/

namespace ProductMdParser

/-- Scanner for all matches of `/"([^"]+)"/g` (inner texts of quoted tokens, in
order, non-overlapping; the `+` requires at least one inner character). The
state `some acc` means an opening quote was read and `acc` holds the inner
characters so far (reversed); a closing quote with an empty inner text fails the
match and itself becomes the next opening-quote candidate, and an unterminated
opening quote yields no further matches. -/
def quotedTokensAux : Option (List Char) → List Char → List String
  | none, [] => []
  | none, c :: rest =>
    if c = '"' then quotedTokensAux (some []) rest else quotedTokensAux none rest
  | some _, [] => []
  | some acc, c :: rest =>
    if c = '"' then
      if acc.isEmpty then quotedTokensAux (some []) rest
      else String.mk acc.reverse :: quotedTokensAux none rest
    else quotedTokensAux (some (c :: acc)) rest

def quotedTokens (l : List Char) : List String :=
  quotedTokensAux none l

/-- Lookahead `(?="[^"]*"|$)` of the per-term regex: the position starts a full
quoted token (two quotes with only non-quote characters between them). -/
def quoteLookahead : List Char → Bool
  | '"' :: r => r.any (fun d => d = '"')
  | _ => false

/-- Lazy capture of `([\s\S]*?)(?="[^"]*"|$)`. -/
def lazyUntilQuote : List Char → List Char
  | [] => []
  | c :: rest =>
    if quoteLookahead (c :: rest) then [] else c :: lazyUntilQuote rest

/-- Sub-block of text following the first case-insensitive occurrence of the quoted
term `"term"`, running up to the next quoted token or the end (the capture of
`new RegExp('"' + escapeRegex(term) + '"([\\s\\S]*?)(?="[^"]*"|$)', 'i')`;
`escapeRegex` makes the term a literal pattern, which a literal scan models). -/
def findTermBlock (content term : String) : Option String :=
  match splitAtFirstCI ('"' :: (term.data ++ ['"'])) content.data with
  | none => none
  | some rest => some (String.mk (lazyUntilQuote rest))

/-- Greedy-with-backtracking capture of `\s*([^\n]+)` on the text after a matched
label: the longest whitespace prefix is consumed first and given back one character
at a time until a non-newline character can begin the mandatory capture. -/
def wsStarCapture (T : List Char) : Option (List Char) :=
  let rest := T.dropWhile isWsChar
  if rest.isEmpty then
    match (T.reverse.dropWhile (fun c => c = '\n')).head? with
    | some c => some [c]
    | none => none
  else some (rest.takeWhile (fun c => !(c = '\n')))

/-- Like `wsStarCapture` but for `\s+([^\n]+)` (at least one whitespace consumed). -/
def wsPlusCapture (T : List Char) : Option (List Char) :=
  let W := T.takeWhile isWsChar
  if W.isEmpty then none
  else
    let rest := T.drop W.length
    if rest.isEmpty then
      match ((W.drop 1).reverse.dropWhile (fun c => c = '\n')).head? with
      | some c => some [c]
      | none => none
    else some (rest.takeWhile (fun c => !(c = '\n')))

/-- First label (tried in alternation order) matching case-insensitively at the
head of the input, returning its length. -/
def firstLabelMatch (labels : List (List Char)) (l : List Char) : Option Nat :=
  match labels with
  | [] => none
  | lab :: rest =>
    if isPrefixOfCLCI lab l then some lab.length else firstLabelMatch rest l

/-- Leftmost match of `(?:LAB1|LAB2):\s*([^\n]+)` style regexes: scan positions left
to right; at a label match attempt the capture, else advance one position. -/
def scanLabelCapture (labels : List (List Char))
    (capture : List Char → Option (List Char)) : List Char → Option (List Char)
  | [] => none
  | c :: rest =>
    match firstLabelMatch labels (c :: rest) with
    | some n =>
      match capture ((c :: rest).drop n) with
      | some cap => some cap
      | none => scanLabelCapture labels capture rest
    | none => scanLabelCapture labels capture rest

/-- Capture of `/(?:Literal|Meaning):\s*([^\n]+)/i` on a term block, trimmed
(empty string when the regex does not match). -/
def extractMeaning (termContent : String) : String :=
  match scanLabelCapture ["literal:".data, "meaning:".data] wsStarCapture termContent.data with
  | some cap => jsTrim (String.mk cap)
  | none => ""

/-- Capture of `/(?:Emotional meaning|Emotion):\s*([^\n]+)/i`, trimmed. -/
def extractEmotion (termContent : String) : String :=
  match scanLabelCapture ["emotional meaning:".data, "emotion:".data] wsStarCapture termContent.data with
  | some cap => jsTrim (String.mk cap)
  | none => ""

/-- Capture of `/(?:Usage|Use):\s*([^\n]+)/i`, trimmed. -/
def extractUsage (termContent : String) : String :=
  match scanLabelCapture ["usage:".data, "use:".data] wsStarCapture termContent.data with
  | some cap => jsTrim (String.mk cap)
  | none => ""

/-- Capture of `/Avoid\s+([^\n]+)/i`, trimmed. -/
def extractAvoid (termContent : String) : Option String :=
  match scanLabelCapture ["avoid".data] wsPlusCapture termContent.data with
  | some cap => some (jsTrim (String.mk cap))
  | none => none

/-- Social-appropriateness assembly of `parseSlangTerm`: usage text, with any
`Avoid ...` clause appended (joined by `"; "`), defaulting to `"General use"`. -/
def buildAppropriateness (termContent : String) : String :=
  let usage := extractUsage termContent
  let withAvoid :=
    match extractAvoid termContent with
    | some avoidText =>
      usage ++ (if usage != "" then "; " else "") ++ "Avoid " ++ avoidText
    | none => usage
  if withAvoid != "" then withAvoid else "General use"

/-- Formality inference of `parseSlangTerm`: `formal` exactly when the lowercased
sub-block contains the substring `"formal"`. -/
def inferFormality (termContent : String) : String :=
  if strContains (jsToLower termContent) "formal" then "formal" else "informal"

/-- The record `parseSlangTerm` constructs from a term and its sub-block. -/
def buildSlangInfo (term termContent : String) : SlangInfo :=
  { term := term,
    literalMeaning := extractMeaning termContent,
    emotionalIntent := extractEmotion termContent,
    socialAppropriateness := buildAppropriateness termContent,
    formalityLevel := inferFormality termContent,
    regionalVariations := [] }

/-- Model of `ProductMdParser.parseSlangTerm` (`null` when the term block is not
found or when the extracted meaning or emotional intent is empty). -/
def parseSlangTerm (content term : String) : Option SlangInfo :=
  match findTermBlock content term with
  | none => none
  | some termContent =>
    if extractMeaning termContent = "" || extractEmotion termContent = "" then none
    else some (buildSlangInfo term termContent)

/-- Loop body of `parseSlangSection`: parse each discovered term, keeping only
records accepted by the validator. -/
def parseSlangList (content : String) : List String → List SlangInfo
  | [] => []
  | term :: rest =>
    match parseSlangTerm content term with
    | some info =>
      if DataValidator.validateSlangInfo info then info :: parseSlangList content rest
      else parseSlangList content rest
    | none => parseSlangList content rest

def parseSlangSection (content : String) : List SlangInfo :=
  parseSlangList content (quotedTokens content.data)

/-- Model of `content.split('\n').map(l => l.trim()).filter(l => l)`. -/
def splitTrimmedLines (content : String) : List String :=
  ((jsSplit content "\n").map jsTrim).filter (fun l => l != "")

/-- Model of `extractCityName`: capture of `/^([A-Za-z\s]+)(?:\s*\([^)]+\))?/`,
trimmed (the greedy character-class prefix; `null` when the line does not start
with a letter or whitespace character). -/
def extractCityName (cityLine : String) : Option String :=
  let m := cityLine.data.takeWhile (fun c => c.isAlpha || isWsChar c)
  if m.isEmpty then none else some (jsTrim (String.mk m))

/-- Model of `parseFoodLine`. -/
def parseFoodLine (line city : String) : Option FoodInfo :=
  match jsSplit line "→" with
  | [p0, p1] =>
    let name := jsTrim p0
    let description := jsTrim p1
    let d := jsToLower description
    let spiceLevel :=
      if strContains d "extreme" then "extreme"
      else if strContains d "high" || strContains d "spicy" then "high"
      else if strContains d "low" || strContains d "mild" then "low"
      else "medium"
    let bestTime :=
      if strContains d "breakfast" || strContains d "morning" then "Morning"
      else if strContains d "lunch" then "Lunch"
      else if strContains d "evening" then "Evening"
      else "Evening"
    some {
      name := name, city := city, spiceLevel := spiceLevel, bestTime := bestTime,
      description := description,
      culturalSignificance := "Traditional " ++ city ++ " specialty" }
  | _ => none

/-- Loop of `parseFoodSection` with its mutable `currentCity` state. -/
def parseFoodLines (currentCity : String) : List String → List FoodInfo
  | [] => []
  | line :: rest =>
    if strContains line "🍗" || strContains line "Food Principles" || strContains line "City-wise" then
      parseFoodLines currentCity rest
    else if !(strContains line "→") &&
        (strContains line "Visakhapatnam" || strContains line "Vijayawada" ||
         strContains line "Guntur" || strContains line "Tirupati") then
      parseFoodLines ((extractCityName line).getD "") rest
    else if strContains line "→" && currentCity != "" then
      match parseFoodLine line currentCity with
      | some food =>
        if DataValidator.validateFoodInfo food then food :: parseFoodLines currentCity rest
        else parseFoodLines currentCity rest
      | none => parseFoodLines currentCity rest
    else parseFoodLines currentCity rest

def parseFoodSection (content : String) : List FoodInfo :=
  parseFoodLines "" (splitTrimmedLines content)

/-- Accumulated per-festival fields of the `festivalData` object; `none` models a
field never assigned (`undefined`). -/
structure FestivalDraft where
  culturalMeaning : Option String
  associatedFoods : Option (List String)
  emotionalTone : Option String
  foodSymbolism : Option String
deriving Repr, DecidableEq

def emptyDraft : FestivalDraft :=
  { culturalMeaning := none, associatedFoods := none, emotionalTone := none, foodSymbolism := none }

/-- Whole-line test of `/^[A-Z][a-z]+(\s+[A-Z][a-z]+)*$/`: whitespace-separated
tokens, each an uppercase letter followed by at least one lowercase letter, with no
leading or trailing whitespace. -/
def wsTokensAux : Option (List Char) → List Char → List (List Char)
  | none, [] => []
  | none, c :: rest =>
    if isWsChar c then wsTokensAux none rest else wsTokensAux (some [c]) rest
  | some acc, [] => [acc.reverse]
  | some acc, c :: rest =>
    if isWsChar c then acc.reverse :: wsTokensAux none rest
    else wsTokensAux (some (c :: acc)) rest

def wsTokens (l : List Char) : List (List Char) :=
  wsTokensAux none l

def capWord : List Char → Bool
  | c :: d :: rest => c.isUpper && (d :: rest).all Char.isLower
  | _ => false

def festivalNamePattern (line : String) : Bool :=
  let l := line.data
  !l.isEmpty &&
  (match l.head? with | some c => !isWsChar c | none => false) &&
  (match l.getLast? with | some c => !isWsChar c | none => false) &&
  (wsTokens l).all capWord &&
  !(wsTokens l).isEmpty

/-- Model of `line.replace(/^foods?:\s*/i, '')` (greedy optional `s`, then the
colon, then trailing whitespace stripped). -/
def stripFoodsTag (line : String) : String :=
  if strStartsWithCI line "foods:" then String.mk ((line.data.drop 6).dropWhile isWsChar)
  else if strStartsWithCI line "food:" then String.mk ((line.data.drop 5).dropWhile isWsChar)
  else line

/-- Model of `line.replace(/.*emotional tone:\s*/i, '')` (greedy `.*` reaches the
last occurrence on the line). -/
def afterToneTag (line : String) : String :=
  match afterLastCI "emotional tone:".data line.data with
  | some r => String.mk (r.dropWhile isWsChar)
  | none => line

/-- Classification of a detail line inside a festival block. -/
def classifyFestivalLine (d : FestivalDraft) (line : String) : FestivalDraft :=
  let ll := jsToLower line
  if strContains ll "festival" || strContains ll "worship" || strContains ll "celebration" then
    { d with culturalMeaning := some line }
  else if strStartsWith ll "foods:" || strStartsWith ll "food:" then
    { d with associatedFoods := some ((jsSplit (stripFoodsTag line) ",").map jsTrim) }
  else if strContains ll "emotional tone:" then
    { d with emotionalTone := some (afterToneTag line) }
  else if strContains ll "symbolizes" || strContains ll "represents" then
    { d with foodSymbolism := some line }
  else d

/-- The `FestivalInfo` record a flush constructs, with the documented defaults
for a missing food symbolism or emotional tone. -/
def buildFestival (currentFestival : String) (d : FestivalDraft) : FestivalInfo :=
  { name := currentFestival,
    culturalMeaning := (d.culturalMeaning.getD ""),
    associatedFoods := (d.associatedFoods.getD []),
    foodSymbolism :=
      jsOrDefault d.foodSymbolism
        ("Traditional foods representing the spirit of " ++ currentFestival),
    emotionalTone := jsOrDefault d.emotionalTone "Celebratory",
    regionalVariations := [] }

/-- Flush of a pending festival: requires a truthy name, cultural meaning and an
assigned foods array; applies the documented defaults; validated before inclusion. -/
def flushFestival (currentFestival : String) (d : FestivalDraft) : Option FestivalInfo :=
  if currentFestival != "" && jsTruthyStr d.culturalMeaning && d.associatedFoods.isSome then
    if DataValidator.validateFestivalInfo (buildFestival currentFestival d) then
      some (buildFestival currentFestival d)
    else none
  else none

/-- Loop of `parseFestivalSection` with its `currentFestival`/`festivalData` state;
the pending festival is flushed on a new festival-name line and at end of input. -/
def parseFestivalLines (currentFestival : String) (festivalData : FestivalDraft) :
    List String → List FestivalInfo
  | [] =>
    match flushFestival currentFestival festivalData with
    | some f => [f]
    | none => []
  | line :: rest =>
    if strContains line "🎉" || strContains line "Festivals" then
      parseFestivalLines currentFestival festivalData rest
    else if festivalNamePattern line && !(strContains line ":") then
      (match flushFestival currentFestival festivalData with
       | some f => [f]
       | none => []) ++ parseFestivalLines line emptyDraft rest
    else if currentFestival != "" then
      parseFestivalLines currentFestival (classifyFestivalLine festivalData line) rest
    else
      parseFestivalLines currentFestival festivalData rest

def parseFestivalSection (content : String) : List FestivalInfo :=
  parseFestivalLines "" emptyDraft (splitTrimmedLines content)

/-- Capture of `/^\(([^)]+)\)/` at the start of a line. -/
def parenCaptureAtStart (s : String) : Option String :=
  match s.data with
  | '(' :: r =>
    let inner := r.takeWhile (fun d => !(d = ')'))
    if !inner.isEmpty && (r.drop inner.length).head? = some ')' then some (String.mk inner)
    else none
  | _ => none

/-- Leftmost capture of `/\(([^)]+)\)/` anywhere in a line. -/
def parenCaptureAnywhereCL : List Char → Option (List Char)
  | [] => none
  | c :: rest =>
    if c = '(' then
      let inner := rest.takeWhile (fun d => !(d = ')'))
      if !inner.isEmpty && (rest.drop inner.length).head? = some ')' then some inner
      else parenCaptureAnywhereCL rest
    else parenCaptureAnywhereCL rest

def parenCaptureAnywhere (s : String) : Option String :=
  (parenCaptureAnywhereCL s.data).map String.mk

/-- The `EmotionFoodMapping` record built from one arrow line (left part `p0`,
right part `p1`, with the following line available for the parenthesised logic
lookahead). -/
def emotionMappingOfLine (p0 p1 : String) (nextLine : Option String) : EmotionFoodMapping :=
  let emotion := jsToLower (jsTrim p0)
  let foodLine := jsTrim p1
  let recommendedFood := jsTrim ((jsSplit foodLine "(").headD "")
  let nextLineLogic : String :=
    match nextLine with
    | some next =>
      match parenCaptureAtStart next with
      | some cap => jsTrim cap
      | none => ""
    | none => ""
  let inlineLogic : String :=
    if nextLineLogic != "" then nextLineLogic
    else
      match parenCaptureAnywhere foodLine with
      | some cap => jsTrim cap
      | none => ""
  let emotionalLogic :=
    if inlineLogic != "" then inlineLogic
    else recommendedFood ++ " is culturally appropriate for " ++ emotion ++ " feelings"
  let foodLower := jsToLower recommendedFood
  let homeVsStreet :=
    if strContains foodLower "coffee" || strContains foodLower "punugulu" then "street"
    else if strContains foodLower "pappu" || strContains foodLower "rasam" ||
        strContains foodLower "curd rice" then "home"
    else "both"
  { emotion := emotion, recommendedFood := recommendedFood,
    emotionalLogic := emotionalLogic, homeVsStreet := homeVsStreet }

/-- Loop of `parseEmotionSection` (with one-line lookahead for the logic text). -/
def parseEmotionLines : List String → List EmotionFoodMapping
  | [] => []
  | line :: rest =>
    if strContains line "❤️" || strContains line "Emotional" ||
        strContains line "Core Belief" || strContains line "Mood" then
      parseEmotionLines rest
    else if strContains line "→" then
      match jsSplit line "→" with
      | [p0, p1] =>
        if DataValidator.validateEmotionFoodMapping (emotionMappingOfLine p0 p1 rest.head?) then
          emotionMappingOfLine p0 p1 rest.head? :: parseEmotionLines rest
        else parseEmotionLines rest
      | _ => parseEmotionLines rest
    else parseEmotionLines rest

def parseEmotionSection (content : String) : List EmotionFoodMapping :=
  parseEmotionLines (splitTrimmedLines content)

structure Sections where
  slang : Option String
  food : Option String
  festivals : Option String
  emotions : Option String
deriving Repr, DecidableEq

/-- Section capture `MARKER([\s\S]*?)(?=END|$)`. -/
def sectionCapture (marker endPat : String) (content : String) : Option String :=
  match splitAtFirst marker.data content.data with
  | none => none
  | some rest => some (String.mk (lazyUntilPat endPat.data rest))

/-- Model of `extractSections`. -/
def extractSections (content : String) : Sections :=
  { slang := sectionCapture "🗣️ Andhra Slang Intelligence" "🍗" content,
    food := sectionCapture "🍗 Andhra Street Food Culture" "🎉" content,
    festivals := sectionCapture "🎉 Festivals of Andhra Pradesh" "❤️" content,
    emotions := sectionCapture "❤️ Emotional Food Mapping" "🎛️" content }

/-- Model of `parseContent` (the pure part of `parseProductMd`, once the document
text is in hand). -/
def parseContent (content : String) : ParsedCulturalData :=
  let sections := extractSections content
  { slang := parseSlangSection (sections.slang.getD ""),
    food := parseFoodSection (sections.food.getD ""),
    festivals := parseFestivalSection (sections.festivals.getD ""),
    emotions := parseEmotionSection (sections.emotions.getD "") }

/-- Model of `validateParsedData` (delegates to the completeness validator). -/
def validateParsedData (data : ParsedCulturalData) : ValidationResult :=
  DataValidator.validateDataCompleteness data

end ProductMdParser

/-! ### CulturalDatabaseImpl (src/CulturalDatabaseImpl.js) -/

/-- Optional user preferences (`UserPreferences` of types.ts); absent fields are
`undefined`. -/
structure UserPreferences where
  spiceLevel : Option String
  dietary : Option String
  timeOfDay : Option String
  formality : Option String
  region : Option String
deriving Repr, DecidableEq

namespace CulturalDatabaseImpl

structure CulturalStore where
  slangData : List (String × SlangInfo)
  foodData : List (String × List FoodInfo)
  festivalData : List (String × FestivalInfo)
  emotionFoodData : List (String × EmotionFoodMapping)
  isLoaded : Bool
deriving Repr, DecidableEq

/-- The fresh maps of the constructor, before `loadCulturalData` runs. -/
def initialStore : CulturalStore :=
  { slangData := [], foodData := [], festivalData := [], emotionFoodData := [],
    isLoaded := false }

/-- Model of `loadFromParsedData`: each collection is folded into its map in
source order (food records are grouped by lowercased city and appended). -/
def loadFromParsedData (s : CulturalStore) (data : ParsedCulturalData) : CulturalStore :=
  let s1 := { s with
    slangData := data.slang.foldl (fun m (slang : SlangInfo) => jsMapSet m (jsToLower slang.term) slang) s.slangData }
  let s2 := { s1 with
    foodData := data.food.foldl (fun m (food : FoodInfo) => jsMapPush m (jsToLower food.city) food) s1.foodData }
  let s3 := { s2 with
    festivalData := data.festivals.foldl (fun m (festival : FestivalInfo) => jsMapSet m (jsToLower festival.name) festival) s2.festivalData }
  { s3 with
    emotionFoodData := data.emotions.foldl (fun m (mapping : EmotionFoodMapping) => jsMapSet m (jsToLower mapping.emotion) mapping) s3.emotionFoodData }

/-- The hardcoded `slangEntries` of `loadSlangData`. -/
def slangEntries : List SlangInfo :=
  [ { term := "Arey Baboi", literalMeaning := "Oh my God",
      emotionalIntent := "Shock / frustration / disbelief",
      socialAppropriateness := "Informal only", formalityLevel := "informal",
      regionalVariations := [] },
    { term := "Doola Teerinda?", literalMeaning := "Are you out of your mind?",
      emotionalIntent := "Anger / scolding",
      socialAppropriateness := "Use only among close relations", formalityLevel := "informal",
      regionalVariations := [] },
    { term := "Taggede Le", literalMeaning := "I won\x27t step back",
      emotionalIntent := "Confidence / motivation",
      socialAppropriateness := "Often used humorously", formalityLevel := "informal",
      regionalVariations := [] },
    { term := "Lite Teesko", literalMeaning := "Don\x27t worry about it",
      emotionalIntent := "Comfort / casual dismissal",
      socialAppropriateness := "Casual conversations", formalityLevel := "informal",
      regionalVariations := [] },
    { term := "Chala Scene Undi", literalMeaning := "Too much drama",
      emotionalIntent := "Sarcasm",
      socialAppropriateness := "Youth slang", formalityLevel := "informal",
      regionalVariations := [] } ]

/-- The hardcoded `foodEntries` of `loadFoodData`. -/
def foodEntries : List FoodInfo :=
  [ { name := "Punugulu", city := "Visakhapatnam", spiceLevel := "medium", bestTime := "Evening",
      description := "Deep-fried lentil balls, crispy outside and soft inside",
      culturalSignificance := "Popular evening snack near beach areas" },
    { name := "Bongulo Chicken", city := "Visakhapatnam", spiceLevel := "high", bestTime := "Evening",
      description := "Spicy chicken preparation with coastal flavors",
      culturalSignificance := "Coastal Andhra specialty with seafood influence" },
    { name := "Idli with Karam", city := "Vijayawada", spiceLevel := "high", bestTime := "Morning",
      description := "Steamed rice cakes with spicy powder",
      culturalSignificance := "Traditional breakfast combining comfort with spice" },
    { name := "Chicken Pakodi", city := "Vijayawada", spiceLevel := "medium", bestTime := "Evening",
      description := "Spiced chicken fritters",
      culturalSignificance := "Popular evening snack in Krishna district" },
    { name := "Mirchi Bajji", city := "Guntur", spiceLevel := "extreme", bestTime := "Evening",
      description := "Stuffed chili fritters",
      culturalSignificance := "Guntur\x27s signature dish showcasing extreme spice tolerance" },
    { name := "Gongura Pachadi", city := "Guntur", spiceLevel := "high", bestTime := "Lunch",
      description := "Tangy sorrel leaves chutney",
      culturalSignificance := "Guntur\x27s pride, represents bold flavors" },
    { name := "Dosa with Red Chutney", city := "Tirupati", spiceLevel := "medium", bestTime := "Morning",
      description := "Crispy crepe with spicy red chutney",
      culturalSignificance := "Temple town breakfast tradition" },
    { name := "Laddu", city := "Tirupati", spiceLevel := "low", bestTime := "Any",
      description := "Sweet gram flour balls",
      culturalSignificance := "Sacred temple prasadam, spiritually significant" },
    { name := "Vegetable Biryani", city := "Tirupati", spiceLevel := "medium", bestTime := "Evening",
      description := "Aromatic rice with mixed vegetables and spices",
      culturalSignificance := "Temple town vegetarian specialty for evening meals" },
    { name := "Curd Rice", city := "Tirupati", spiceLevel := "low", bestTime := "Evening",
      description := "Cooling rice with yogurt and mild tempering",
      culturalSignificance := "Temple town comfort food, perfect for evening" } ]

/-- The hardcoded `festivalEntries` of `loadFestivalData`. -/
def festivalEntries : List FestivalInfo :=
  [ { name := "Sankranti",
      culturalMeaning := "Harvest festival celebrating the transition of seasons and agricultural abundance",
      associatedFoods := ["Ariselu", "Pongal"],
      foodSymbolism := "Ariselu represents prosperity, Pongal symbolizes gratitude to nature",
      emotionalTone := "Family bonding and gratitude",
      regionalVariations :=
        [ { region := "coastal",
            variation := "More emphasis on seafood preparations alongside traditional sweets" },
          { region := "rayalaseema",
            variation := "Focus on simple, rustic preparations with local grains" } ] },
    { name := "Ugadi",
      culturalMeaning := "Telugu New Year symbolizing new beginnings and the balance of life experiences",
      associatedFoods := ["Ugadi Pachadi"],
      foodSymbolism := "Six tastes represent the full spectrum of life experiences - sweet, sour, salty, bitter, spicy, and astringent",
      emotionalTone := "Hope and renewal",
      regionalVariations := [] },
    { name := "Vinayaka Chavithi",
      culturalMeaning := "Ganesh worship celebrating wisdom, prosperity, and removal of obstacles",
      associatedFoods := ["Modakam"],
      foodSymbolism := "Modakam represents the sweetness of devotion and Lord Ganesha\x27s favorite offering",
      emotionalTone := "Joy and community celebration",
      regionalVariations := [] } ]

/-- The hardcoded `emotionMappings` of `loadEmotionFoodData`. -/
def emotionMappings : List EmotionFoodMapping :=
  [ { emotion := "sad", recommendedFood := "Pappu with Avakaya",
      emotionalLogic := "Comfort food that brings nostalgia and warmth, like mother\x27s cooking",
      homeVsStreet := "home" },
    { emotion := "sick", recommendedFood := "Rasam",
      emotionalLogic := "Light, healing properties with digestive benefits and warmth",
      homeVsStreet := "home" },
    { emotion := "happy", recommendedFood := "Biryani",
      emotionalLogic := "Celebratory dish that represents abundance and festive mood",
      homeVsStreet := "both" },
    { emotion := "angry", recommendedFood := "Curd Rice",
      emotionalLogic := "Cooling effect that calms the mind and reduces heat in the body",
      homeVsStreet := "home" },
    { emotion := "tired", recommendedFood := "Coffee with Punugulu",
      emotionalLogic := "Energy boost from caffeine combined with satisfying evening snack",
      homeVsStreet := "street" } ]

def loadSlangData (s : CulturalStore) : CulturalStore :=
  { s with slangData :=
    slangEntries.foldl (fun m slang => jsMapSet m (jsToLower slang.term) slang) s.slangData }

def loadFoodData (s : CulturalStore) : CulturalStore :=
  { s with foodData :=
    foodEntries.foldl (fun m food => jsMapPush m (jsToLower food.city) food) s.foodData }

def loadFestivalData (s : CulturalStore) : CulturalStore :=
  { s with festivalData :=
    festivalEntries.foldl (fun m festival => jsMapSet m (jsToLower festival.name) festival) s.festivalData }

def loadEmotionFoodData (s : CulturalStore) : CulturalStore :=
  { s with emotionFoodData :=
    emotionMappings.foldl (fun m mapping => jsMapSet m (jsToLower mapping.emotion) mapping) s.emotionFoodData }

/-- Model of `loadHardcodedData`: the four loaders run in source order. Note that
the maps are NOT cleared first; the hardcoded entries are set into whatever the
maps already contain. -/
def loadHardcodedData (s : CulturalStore) : CulturalStore :=
  loadEmotionFoodData (loadFestivalData (loadFoodData (loadSlangData s)))

/-- Model of `loadCulturalData` on already-parsed data (the `try` branch: the
parsed data is loaded first, then completeness is validated, and on failure the
hardcoded data is loaded on top). -/
def loadCulturalData (parsed : ParsedCulturalData) : CulturalStore :=
  let s1 := loadFromParsedData initialStore parsed
  let s2 :=
    if (DataValidator.validateDataCompleteness parsed).isValid then s1
    else loadHardcodedData s1
  { s2 with isLoaded := true }

/-- Store built from a raw document text (constructor followed by
`parseProductMd` succeeding with this content). -/
def storeFromContent (content : String) : CulturalStore :=
  loadCulturalData (ProductMdParser.parseContent content)

/-- Store built by the `catch` path (parse threw): hardcoded data only. -/
def hardcodedStore : CulturalStore :=
  { loadHardcodedData initialStore with isLoaded := true }

/-- Model of `getSlangInfo`: the `!isLoaded` throw is caught and converted to
`null`; otherwise `map.get(term.toLowerCase()) || null`. -/
def getSlangInfo (s : CulturalStore) (term : String) : Option SlangInfo :=
  if s.isLoaded then jsMapGet s.slangData (jsToLower term) else none

def spiceLevels : String → Option Nat
  | "low" => some 1
  | "medium" => some 2
  | "high" => some 3
  | "extreme" => some 4
  | _ => none

/-- JS `<` where either operand may be `undefined`: any comparison with
`undefined` is false. -/
def jsLtOpt : Option Nat → Option Nat → Bool
  | some a, some b => decide (a < b)
  | _, _ => false

def timeMapping : String → Option (List String)
  | "morning" => some ["Morning", "morning"]
  | "afternoon" => some ["Lunch", "lunch"]
  | "evening" => some ["Evening", "evening", "Any", "any"]
  | "night" => some ["Evening", "evening", "Any", "any"]
  | _ => none

/-- The dietary-preference clauses of the `getFoodInfo` filter. -/
def dietaryClauses (preferences : UserPreferences) (food : FoodInfo) : Option Bool :=
  if preferences.dietary == some "veg" && strContains (jsToLower food.name) "chicken" then
    some false
  else if preferences.dietary == some "non-veg" && !(strContains (jsToLower food.name) "chicken") then
    some (strContains (jsToLower food.name) "chicken")
  else none

/-- The time-of-day clause of the `getFoodInfo` filter (true when no time is
requested). -/
def timeClause (preferences : UserPreferences) (food : FoodInfo) : Bool :=
  if jsTruthyStr preferences.timeOfDay then
    let validTimes := (timeMapping (jsToLower (preferences.timeOfDay.getD ""))).getD []
    let foodBestTime := jsToLower food.bestTime
    validTimes.any (fun time => strContains foodBestTime (jsToLower time))
  else true

/-- The dietary/time part of the filter predicate (everything except the
spice-ceiling clause). -/
def dietaryTimePred (preferences : UserPreferences) (food : FoodInfo) : Bool :=
  match dietaryClauses preferences food with
  | some b => b
  | none => timeClause preferences food

/-- The complete `getFoodInfo` filter predicate, in source clause order. -/
def foodFilterPred (preferences : UserPreferences) (food : FoodInfo) : Bool :=
  match dietaryClauses preferences food with
  | some b => b
  | none =>
    let userSpiceLevel := preferences.spiceLevel.bind spiceLevels
    let foodSpiceLevel := spiceLevels food.spiceLevel
    if jsLtOpt userSpiceLevel foodSpiceLevel then false
    else timeClause preferences food

/-- Model of `getFoodInfo` (the `catch` yields `[]`; an unknown city yields the
`|| []` default and hence `[]`). -/
def getFoodInfo (s : CulturalStore) (city : String) (preferences : UserPreferences) :
    List FoodInfo :=
  if s.isLoaded then
    ((jsMapGet s.foodData (jsToLower city)).getD []).filter (foodFilterPred preferences)
  else []

/-- Model of `getFestivalInfo`. -/
def getFestivalInfo (s : CulturalStore) (festival : String) : Option FestivalInfo :=
  if s.isLoaded then jsMapGet s.festivalData (jsToLower festival) else none

/-- Model of `getEmotionFoodMapping`. -/
def getEmotionFoodMapping (s : CulturalStore) (emotion : String) : Option EmotionFoodMapping :=
  if s.isLoaded then jsMapGet s.emotionFoodData (jsToLower emotion) else none

end CulturalDatabaseImpl

/-! ### ErrorHandler.findClosestMatch (src/ErrorHandler.ts) -/

namespace ErrorHandler

/-- Score of one candidate against the target, scaled by 10. The JS source sums
the doubles 0.8, 0.2 and 0.1; every attainable partial sum (0, 0.1, 0.2,
0.2 + 0.1, 0.8, 0.8 + 0.1, 0.8 + 0.2, 0.8 + 0.2 + 0.1) is strictly ordered in
double arithmetic exactly as the scaled integers 0, 1, 2, 3, 8, 9, 10, 11 are,
and the `>= 0.3` threshold agrees on all of them (0.2 + 0.1 evaluates to
0.30000000000000004 >= 0.3), so integer scores model the doubles exactly. -/
def candScore (target tl candidate : String) : Nat :=
  let cl := jsToLower candidate
  (if strContains cl tl || strContains tl cl then 8 else 0) +
  (if jsCharEq (jsCharAt0 tl) (jsCharAt0 cl) then 2 else 0) +
  (if ((target.length : Int) - (candidate.length : Int)).natAbs ≤ 2 then 1 else 0)

/-- Loop of `findClosestMatch`, carrying `bestScore`/`bestMatch`; an exact
case-insensitive match returns immediately. -/
def findClosestAux (target tl : String) :
    List String → Nat → Option String → Option String
  | [], _, bestMatch => bestMatch
  | candidate :: rest, bestScore, bestMatch =>
    if jsToLower candidate = tl then some candidate
    else
      let score := candScore target tl candidate
      if bestScore < score ∧ 3 ≤ score then findClosestAux target tl rest score (some candidate)
      else findClosestAux target tl rest bestScore bestMatch

/-- Model of `ErrorHandler.findClosestMatch`. -/
def findClosestMatch (target : String) (candidates : List String) : Option String :=
  findClosestAux target (jsToLower target) candidates 0 none

/-- Restatement of the closest-match heuristic following the specification text:
an exact case-insensitive match wins immediately; otherwise the result is the
highest-scoring candidate with score at least 0.3, a later candidate replacing an
earlier one only on a strictly greater score, else null. -/
def closestMatchSpec (target : String) (candidates : List String) : Option String :=
  let tl := jsToLower target
  match candidates.find? (fun c => jsToLower c = tl) with
  | some c => some c
  | none =>
    (candidates.foldl
      (fun acc c =>
        let score := candScore target tl c
        if acc.1 < score ∧ 3 ≤ score then (score, some c) else acc)
      ((0 : Nat), (none : Option String))).2

end ErrorHandler

/-! ### EmotionFoodMapperImpl (src/EmotionFoodMapperImpl.ts) -/

structure FoodRecommendation where
  food : String
  reasoning : String
  culturalContext : String
  spiceLevel : String
deriving Repr, DecidableEq

namespace EmotionFoodMapperImpl

structure MapperEntry where
  food : String
  reasoning : String
  spiceLevel : String
  homeVsStreet : String
deriving Repr, DecidableEq

/-- The constructor's five-entry `emotionMappings` map. -/
def emotionMappings : List (String × MapperEntry) :=
  [ ("sad",
     { food := "Pappu with Avakaya",
       reasoning := "Comfort food that brings nostalgia and warmth, like amma\x27s cooking",
       spiceLevel := "medium", homeVsStreet := "home" }),
    ("sick",
     { food := "Rasam",
       reasoning := "Light, healing soup with pepper that soothes the body and aids digestion",
       spiceLevel := "low", homeVsStreet := "home" }),
    ("happy",
     { food := "Biryani",
       reasoning := "Celebratory feast food that matches the joy and festive mood",
       spiceLevel := "high", homeVsStreet := "street" }),
    ("angry",
     { food := "Curd Rice",
       reasoning := "Cooling effect that calms the mind and reduces body heat from anger",
       spiceLevel := "low", homeVsStreet := "home" }),
    ("tired",
     { food := "Coffee with Punugulu",
       reasoning := "Energy boost from caffeine paired with crispy snacks for quick satisfaction",
       spiceLevel := "medium", homeVsStreet := "street" }) ]

/-- The fixed comfort-food default returned for an unknown emotion. -/
def comfortFoodDefault : FoodRecommendation :=
  { food := "Pappu with Avakaya",
    reasoning := "When in doubt, comfort food like pappu always helps, ra!",
    culturalContext := "In Andhra culture, pappu is the ultimate comfort food that soothes any emotion",
    spiceLevel := "medium" }

/-- Model of `mapEmotionToFood` (lookup under `emotion.toLowerCase().trim()`). -/
def mapEmotionToFood (emotion : String) : FoodRecommendation :=
  let normalizedEmotion := jsTrim (jsToLower emotion)
  match jsMapGet emotionMappings normalizedEmotion with
  | none => comfortFoodDefault
  | some mapping =>
    { food := mapping.food,
      reasoning := mapping.reasoning,
      culturalContext :=
        "In Andhra culture, food is emotional medicine - " ++ mapping.food ++
        " is perfect for when you\x27re feeling " ++ emotion,
      spiceLevel := mapping.spiceLevel }

end EmotionFoodMapperImpl

/-! ### ResponseFormatter (src/unnamed/part_009) -/

inductive Category
  | slang
  | food
  | festival
  | emotion
deriving Repr, DecidableEq

inductive Region
  | coastal
  | guntur
  | rayalaseema
deriving Repr, DecidableEq

/-- The intermediate response structure handed to `formatResponse`. -/
structure CulturalResponse where
  content : String
  teluguWords : List String
  category : Category
  region : Option Region
deriving Repr, DecidableEq

namespace ResponseFormatter

def culturalGreetings : Region → List String
  | Region.coastal => ["Trust me", "You know what", "Let me tell you", "Honestly speaking"]
  | Region.guntur => ["Pakka guarantee", "Believe me", "No doubt about it", "Fire ga cheppali ante"]
  | Region.rayalaseema => ["Simple ga cheppali ante", "Traditional ga", "Straight forward ga", "Honestly"]

def culturalClosings : Category → List String
  | Category.slang =>
    ["That\x27s how we express ourselves in Andhra culture!",
     "This is authentic Andhra way of speaking!",
     "That\x27s the beauty of our Telugu expressions!"]
  | Category.food =>
    ["This is authentic Andhra taste that locals love!",
     "That\x27s real Andhra flavor for you!",
     "This is what makes Andhra cuisine special!"]
  | Category.festival =>
    ["That\x27s the beauty of Andhra festival traditions!",
     "This is how we celebrate in Andhra culture!",
     "That\x27s the richness of our cultural heritage!"]
  | Category.emotion =>
    ["That\x27s the wisdom of Andhra food culture!",
     "This is how we heal through food in our tradition!",
     "That\x27s the emotional connection we have with food!"]

/-- Selection of one list element; the source draws the index with
`Math.floor(Math.random() * list.length)`, modelled by an arbitrary natural
choice reduced modulo the list length. -/
def pick (l : List String) (choice : Nat) : String :=
  l.getD (choice % l.length) ""

/-- The alternatives of the opener test `/^(trust me|you know|let me tell|pakka|believe|honestly|simple|arey|baboi)/i`. -/
def openerPrefixes : List String :=
  ["trust me", "you know", "let me tell", "pakka", "believe", "honestly", "simple", "arey", "baboi"]

/-- Model of `addCulturalOpening` (the greeting choice is the randomness
parameter). -/
def addCulturalOpening (content : String) (region : Option Region) (choice : Nat) : String :=
  let hasOpening := openerPrefixes.any (fun p => strStartsWith (jsToLower content) p)
  if hasOpening then content
  else
    let greetings :=
      match region with
      | some r => culturalGreetings r
      | none => culturalGreetings Region.coastal
    pick greetings choice ++ ", " ++ jsToLower content

/-- Model of `ensureTeluguIntegration`. -/
def ensureTeluguIntegration (content : String) (teluguWords : List String) : String :=
  match teluguWords with
  | [] => content
  | word :: _ =>
    let hasTeluguWords :=
      teluguWords.any (fun w => strContains (jsToLower content) (jsToLower w))
    if hasTeluguWords then content
    else if jsToLower word = "arey" || jsToLower word = "baboi" then
      capitalizeFirst word ++ ", " ++ jsToLower content
    else if jsToLower word = "babu" || jsToLower word = "amma" then
      content ++ " That\x27s what we call it, " ++ word ++ "!"
    else
      content ++ " We call it " ++ word ++ " in Telugu."

/-- Boundary test `\b` immediately after a pattern of length `n` whose last
character is a word character: the following character is absent or non-word. -/
def wordBoundaryAfter (n : Nat) (l : List Char) : Bool :=
  match (l.drop n).head? with
  | none => true
  | some c => !isWordChar c

/-- First alternative (in alternation order) matching case-insensitively at the
head of the input with a word boundary after it, returning its length. -/
def matchLenAt (terms : List (List Char)) (l : List Char) : Option Nat :=
  match terms with
  | [] => none
  | t :: ts =>
    if isPrefixOfCLCI t l && wordBoundaryAfter t.length l then some t.length
    else matchLenAt ts l

/-- Global replacement of `\b(T1|T2|...)\b` by the empty string: a single
left-to-right scan over the original characters. `prevWord` tracks whether the
previously consumed original character is a word character (so `\b` holds before
a word character exactly when `prevWord` is false); a `skip` counter consumes the
remaining characters of a match. After a full match the last consumed character
is the final (word) character of the term, so `prevWord` becomes true. -/
def removeTermsAux (terms : List (List Char)) : Nat → Bool → List Char → List Char
  | _, _, [] => []
  | 0, prevWord, c :: rest =>
    if prevWord then c :: removeTermsAux terms 0 (isWordChar c) rest
    else
      match matchLenAt terms (c :: rest) with
      | some n => removeTermsAux terms (n - 1) true rest
      | none => c :: removeTermsAux terms 0 (isWordChar c) rest
  | skip + 1, _, _ :: rest => removeTermsAux terms skip true rest

/-- The five alternation groups of `removeTechnicalTerms`, lowercased (all the
regexes carry the `i` flag). -/
def techGroup1 : List (List Char) :=
  ["api".data, "database".data, "dataset".data, "training data".data, "algorithm".data, "model".data]

def techGroup2 : List (List Char) :=
  ["implementation".data, "system".data, "interface".data, "component".data, "module".data]

def techGroup3 : List (List Char) :=
  ["configuration".data, "parameter".data, "function".data, "method".data, "class".data]

def techGroup4 : List (List Char) :=
  ["server".data, "client".data, "endpoint".data, "request".data, "response".data]

def techGroup5 : List (List Char) :=
  ["json".data, "xml".data, "http".data, "rest".data, "graphql".data]

def technicalTermGroups : List (List (List Char)) :=
  [techGroup1, techGroup2, techGroup3, techGroup4, techGroup5]

/-- Replacement of `/\s+/g` by a single space. -/
def collapseWsAux : Bool → List Char → List Char
  | _, [] => []
  | prevWs, c :: rest =>
    if isWsChar c then
      if prevWs then collapseWsAux true rest else ' ' :: collapseWsAux true rest
    else c :: collapseWsAux false rest

def isPunct4 (c : Char) : Bool :=
  c = ',' || c = '.' || c = '!' || c = '?'

/-- Replacement of `/\s+([,.!?])/g` by `$1`: a whitespace run immediately before
one of the four punctuation characters is dropped (the pending buffer holds the
current whitespace run, in reverse). -/
def stripWsBeforePunctAux : List Char → List Char → List Char
  | pending, [] => pending.reverse
  | pending, c :: rest =>
    if isWsChar c then stripWsBeforePunctAux (c :: pending) rest
    else if isPunct4 c then c :: stripWsBeforePunctAux [] rest
    else pending.reverse ++ c :: stripWsBeforePunctAux [] rest

/-- Model of `removeTechnicalTerms`: the five word-boundary replacements in
source order, then the whitespace/punctuation cleanup and trim. -/
def removeTechnicalTerms (content : String) : String :=
  let removed := technicalTermGroups.foldl (fun l terms => removeTermsAux terms 0 false l) content.data
  String.mk (jsTrimCL (stripWsBeforePunctAux [] (collapseWsAux false removed)))

/-- The alternatives of the closing test
`/\b(that's|this is|beauty|authentic|traditional|culture|heritage)\b.*[!.]$/i`. -/
def closingTerms : List (List Char) :=
  ["that\x27s".data, "this is".data, "beauty".data, "authentic".data,
   "traditional".data, "culture".data, "heritage".data]

/-- The `.*[!.]$` tail after a matched alternative of length `n`: the remaining
text must end in `!` or `.`, with no newline in between (`.` does not match a
newline and `$` anchors the true end of the string). -/
def tailOkAfter (n : Nat) (l : List Char) : Bool :=
  match (l.drop n).getLast? with
  | some c => (c = '!' || c = '.') && (l.drop n).dropLast.all (fun d => !(d = '\n'))
  | none => false

/-- Scan of the closing test: at every position with a word boundary before it,
try the alternatives; on a match check the `.*[!.]$` tail, otherwise (or on tail
failure) advance one position. -/
def closingScanAux : Bool → List Char → Bool
  | _, [] => false
  | prevWord, c :: rest =>
    (if prevWord then false
     else
       match matchLenAt closingTerms (c :: rest) with
       | some n => tailOkAfter n (c :: rest)
       | none => false)
    || closingScanAux (isWordChar c) rest

def closingRegexTest (content : String) : Bool :=
  closingScanAux false content.data

/-- Model of `addCulturalClosing` (the closing choice is the randomness
parameter). -/
def addCulturalClosing (content : String) (category : Category) (choice : Nat) : String :=
  if closingRegexTest content then content
  else
    let randomClosing := pick (culturalClosings category) choice
    let content2 :=
      if !(strEndsWithChar content '.') && !(strEndsWithChar content '!') &&
          !(strEndsWithChar content '?') then
        content ++ "."
      else content
    content2 ++ " " ++ randomClosing

/-- Replacement of `/([,.!?])([A-Z])/g` by `$1 $2`: the state `some pc` holds a
punctuation character whose follower has not been seen yet; an uppercase
follower gets the space inserted (and, the match being consumed, cannot itself
open a new match), any other follower is emitted as read. -/
def spacePunctCapAux : Option Char → List Char → List Char
  | none, [] => []
  | none, c :: rest =>
    if isPunct4 c then spacePunctCapAux (some c) rest else c :: spacePunctCapAux none rest
  | some pc, [] => [pc]
  | some pc, c :: rest =>
    if c.isUpper then pc :: ' ' :: c :: spacePunctCapAux none rest
    else if isPunct4 c then pc :: spacePunctCapAux (some c) rest
    else pc :: c :: spacePunctCapAux none rest

/-- Replacement of `/p\s*([a-z])/g` by `p ` followed by the uppercased letter,
for a punctuation character `p`. The state `some buf` means `p` was read and
`buf` holds the whitespace read since (reversed); if no lowercase letter follows,
the match fails and scanning resumes right after `p` (the buffered whitespace
cannot start a new match). -/
def capAfterAux (p : Char) : Option (List Char) → List Char → List Char
  | none, [] => []
  | none, c :: rest =>
    if c = p then capAfterAux p (some []) rest else c :: capAfterAux p none rest
  | some buf, [] => p :: buf.reverse
  | some buf, c :: rest =>
    if isWsChar c then capAfterAux p (some (c :: buf)) rest
    else if c.isLower then p :: ' ' :: c.toUpper :: capAfterAux p none rest
    else if c = p then p :: buf.reverse ++ capAfterAux p (some []) rest
    else p :: buf.reverse ++ c :: capAfterAux p none rest

/-- Model of `improveFlow`: the six regex replacements in source order, then trim
and first-character capitalization. -/
def improveFlow (content : String) : String :=
  let l1 := collapseWsAux false content.data
  let l2 := stripWsBeforePunctAux [] l1
  let l3 := spacePunctCapAux none l2
  let l4 := capAfterAux '.' none l3
  let l5 := capAfterAux '!' none l4
  let l6 := capAfterAux '?' none l5
  match jsTrimCL l6 with
  | [] => ""
  | c :: rest => String.mk (c.toUpper :: rest)

/-- Model of `formatResponse`: the five formatting steps in source order, with
the two random phrase selections made explicit parameters. -/
def formatResponse (response : CulturalResponse) (openChoice closeChoice : Nat) : String :=
  let f1 := addCulturalOpening response.content response.region openChoice
  let f2 := ensureTeluguIntegration f1 response.teluguWords
  let f3 := removeTechnicalTerms f2
  let f4 := addCulturalClosing f3 response.category closeChoice
  improveFlow f4

structure FormatCheck where
  isValid : Bool
  issues : List String
deriving Repr, DecidableEq

/-- The validator's fixed Telugu vocabulary list. -/
def teluguWordsVocab : List String :=
  ["babu", "amma", "arey", "baboi", "pappu", "avakaya", "rasam", "biryani", "panduga", "santosham"]

/-- The validator's denylisted technical terms. -/
def validatorTechTerms : List String :=
  ["API", "database", "dataset", "training", "algorithm", "system"]

def warmthIndicators : List String :=
  ["trust me", "you know", "let me tell", "pakka", "believe", "honestly", "arey", "baboi"]

/-- The vocabulary check of `validateResponseFormat`. -/
def hasTeluguWord (content : String) : Bool :=
  teluguWordsVocab.any (fun word => strContains (jsToLower content) word)

/-- The technical-term check of `validateResponseFormat` (case-insensitive
substring containment). -/
def hasTechnicalTerms (content : String) : Bool :=
  validatorTechTerms.any (fun term => strContains (jsToLower content) (jsToLower term))

def hasWarmth (content : String) : Bool :=
  warmthIndicators.any (fun indicator => strContains (jsToLower content) (jsToLower indicator))

/-- The terminal-punctuation check of `validateResponseFormat`. -/
def endsWithPunct (content : String) : Bool :=
  strEndsWithChar (jsTrim content) '.' || strEndsWithChar (jsTrim content) '!' ||
  strEndsWithChar (jsTrim content) '?'

/-- Model of `validateResponseFormat`. -/
def validateResponseFormat (content : String) : FormatCheck :=
  let issues :=
    (if !hasTeluguWord content then ["Response should include Telugu vocabulary"] else []) ++
    (if hasTechnicalTerms content then ["Response contains technical implementation details"] else []) ++
    (if !hasWarmth content then ["Response should have warm, friendly tone"] else []) ++
    (if !endsWithPunct content then ["Response should end with proper punctuation"] else [])
  { isValid := issues.isEmpty, issues := issues }

end ResponseFormatter

/-! ### Concrete inputs used by witnesses and counterexamples -/

/-- Preferences with every field absent. -/
def noPrefs : UserPreferences :=
  { spiceLevel := none, dietary := none, timeOfDay := none, formality := none, region := none }

/-- The hardcoded mapping for `tired` (the last entry set by `loadEmotionFoodData`). -/
def hardcodedTiredMapping : EmotionFoodMapping :=
  { emotion := "tired", recommendedFood := "Coffee with Punugulu",
    emotionalLogic := "Energy boost from caffeine combined with satisfying evening snack",
    homeVsStreet := "street" }

/-- The lowercased keys under which `loadEmotionFoodData` stores the hardcoded
emotion mappings. -/
def hardcodedEmotionKeys : List String :=
  CulturalDatabaseImpl.emotionMappings.map (fun m => jsToLower m.emotion)

/-- A document whose emotion section parses to a single `bored` mapping: it fails
completeness validation, yet the `bored` record stays in the store. -/
def docBoredOnly : String :=
  "❤️ Emotional Food Mapping\nbored → Rasam\n"

/-- Parsed data with all four collections empty (fails completeness). -/
def emptyParsed : ParsedCulturalData :=
  { slang := [], food := [], festivals := [], emotions := [] }

/-- A document with all four sections, each producing at least one record. -/
def docAllSections : String :=
  "🗣️ Andhra Slang Intelligence\n\"Abba\" Meaning: wow\nEmotion: joy\n🍗 Andhra Street Food Culture\nVisakhapatnam (Vizag)\nPunugulu → medium spice\n🎉 Festivals of Andhra Pradesh\nUgadi\nTelugu new year festival\nFoods: Ugadi Pachadi\n❤️ Emotional Food Mapping\nsad → Rasam\n"

def dummySlang : SlangInfo :=
  { term := "x", literalMeaning := "x", emotionalIntent := "x",
    socialAppropriateness := "x", formalityLevel := "informal", regionalVariations := [] }

def dummyFood : FoodInfo :=
  { name := "x", city := "x", spiceLevel := "low", bestTime := "Any",
    description := "x", culturalSignificance := "" }

def dummyFestival : FestivalInfo :=
  { name := "x", culturalMeaning := "x", associatedFoods := ["x"],
    foodSymbolism := "x", emotionalTone := "x", regionalVariations := [] }

def dummyEmotion : EmotionFoodMapping :=
  { emotion := "x", recommendedFood := "x", emotionalLogic := "x", homeVsStreet := "home" }

/-- A slang document whose term block contains the word `formal`. -/
def slangDocFormal : String :=
  "\"Abba\" Meaning: wow Emotion: joy use formal tone"

/-- The sub-block that `findTermBlock` extracts from `slangDocFormal`. -/
def slangBlockFormal : String :=
  " Meaning: wow Emotion: joy use formal tone"

/-- The record `parseSlangTerm` produces from `slangDocFormal`. -/
def slangInfoFormal : SlangInfo :=
  { term := "Abba", literalMeaning := "wow Emotion: joy use formal tone",
    emotionalIntent := "joy use formal tone", socialAppropriateness := "General use",
    formalityLevel := "formal", regionalVariations := [] }

/-- A slang document whose term block has a meaning but no emotional intent. -/
def slangDocNoEmotion : String :=
  "\"Abba\" Meaning: wow"

/-- The formatter input of the C2 counterexample: no Telugu words supplied, and a
content whose `training`/`data` fragments the remover rejoins after deleting
`API` between them. -/
def exResponse : CulturalResponse :=
  { content := "training API data", teluguWords := [],
    category := Category.slang, region := some Region.coastal }

/-! ## Theorems

Shared helper lemmas first, then one theorem per claim (with witnesses and
counterexamples where required). -/

/-! ### Map lemmas -/

theorem jsMapGet_jsMapSet_self {α : Type} (m : List (String × α)) (k : String) (v : α) :
    jsMapGet (jsMapSet m k v) k = some v := by
  induction m with
  | nil => simp [jsMapSet, jsMapGet]
  | cons p rest ih =>
    obtain ⟨k1, v1⟩ := p
    by_cases h : k1 = k <;> simp [jsMapSet, jsMapGet, h, ih]

theorem jsMapGet_jsMapSet_ne {α : Type} (m : List (String × α)) (k q : String) (v : α)
    (h : q ≠ k) : jsMapGet (jsMapSet m k v) q = jsMapGet m q := by
  induction m with
  | nil => simp [jsMapSet, jsMapGet, Ne.symm h]
  | cons p rest ih =>
    obtain ⟨k1, v1⟩ := p
    by_cases h1 : k1 = k <;> simp [jsMapSet, jsMapGet, h1, ih, Ne.symm h]

theorem jsMapGet_foldl_jsMapSet_not_mem {α : Type} (key : α → String) (l : List α)
    (m : List (String × α)) (q : String) (h : q ∉ l.map (fun a => jsToLower (key a))) :
    jsMapGet (l.foldl (fun acc a => jsMapSet acc (jsToLower (key a)) a) m) q = jsMapGet m q := by
  induction l generalizing m with
  | nil => rfl
  | cons a as ih =>
    simp only [List.map_cons, List.mem_cons, not_or] at h
    rw [List.foldl_cons, ih _ h.2, jsMapGet_jsMapSet_ne _ _ _ _ h.1]

theorem isInfixOfCL_nil (l : List Char) : isInfixOfCL [] l = true := by
  cases l <;> simp [isInfixOfCL, isPrefixOfCL]

theorem jsToLower_ne_empty (c : String) (hc : 0 < c.length) : jsToLower c ≠ "" := by
  intro he
  have hd : (jsToLower c).data = ("" : String).data := congrArg String.data he
  have hmap : c.data.map Char.toLower = [] := hd
  have : c.data = [] := List.map_eq_nil_iff.mp hmap
  have : c.length = 0 := by
    show c.data.length = 0
    simp [this]
  omega

/-! ### Claim C6: the closest-match heuristic -/

theorem findClosestAux_spec (target tl : String) (cs : List String) (bs : Nat) (bm : Option String) :
    ErrorHandler.findClosestAux target tl cs bs bm =
      (match cs.find? (fun c => jsToLower c = tl) with
       | some c => some c
       | none =>
         (cs.foldl
           (fun acc c =>
             let score := ErrorHandler.candScore target tl c
             if acc.1 < score ∧ 3 ≤ score then (score, some c) else acc)
           (bs, bm)).2) := by
  induction cs generalizing bs bm with
  | nil => rfl
  | cons c cs ih =>
    by_cases hx : jsToLower c = tl
    · rw [List.find?_cons_of_pos _ (by simpa using hx)]
      simp [ErrorHandler.findClosestAux, hx]
    · rw [List.find?_cons_of_neg _ (by simpa using hx)]
      simp only [ErrorHandler.findClosestAux, if_neg hx, List.foldl_cons]
      by_cases hsc :
          bs < ErrorHandler.candScore target tl c ∧ 3 ≤ ErrorHandler.candScore target tl c
      · rw [if_pos hsc, if_pos hsc, ih]
      · rw [if_neg hsc, if_neg hsc, ih]

/-- C6: the closest-match heuristic returns an exact case-insensitive match
immediately, and otherwise the highest-scoring candidate (0.8 containment + 0.2
first character + 0.1 length difference at most 2) with score at least 0.3,
later candidates replacing earlier ones only on strictly greater score, else
null; in particular the query `Ugadi` against `[Sankranti, Ugadi, Vinayaka
Chavithi]` returns `Ugadi`. -/
theorem c6_closest_match_spec :
    (∀ (target : String) (candidates : List String),
      ErrorHandler.findClosestMatch target candidates =
        ErrorHandler.closestMatchSpec target candidates) ∧
    ErrorHandler.findClosestMatch "Ugadi" ["Sankranti", "Ugadi", "Vinayaka Chavithi"] =
      some "Ugadi" := by
  constructor
  · intro target candidates
    exact findClosestAux_spec target (jsToLower target) candidates 0 none
  · decide

/-! ### Claim C10: empty-string query returns the first candidate -/

theorem candScore_empty_target (c : String) (hc : 2 < c.length) :
    ErrorHandler.candScore "" "" c = 8 := by
  obtain ⟨d, ds, hds⟩ : ∃ d ds, c.data = d :: ds := by
    cases hcd : c.data with
    | nil =>
      exfalso
      have : c.length = 0 := by
        show c.data.length = 0
        simp [hcd]
      omega
    | cons d ds => exact ⟨d, ds, rfl⟩
  have hcontains : strContains (jsToLower c) "" = true := by
    simp [strContains, isInfixOfCL_nil]
  have hhead : jsCharAt0 (jsToLower c) = some d.toLower := by
    simp [jsCharAt0, jsToLower, hds]
  have hchar : jsCharEq (jsCharAt0 ("" : String)) (jsCharAt0 (jsToLower c)) = false := by
    rw [hhead]
    rfl
  have hlen : ¬(((("" : String).length : Int) - (c.length : Int)).natAbs ≤ 2) := by
    have h0 : ("" : String).length = 0 := rfl
    rw [h0]
    omega
  simp [ErrorHandler.candScore, hcontains, hchar, hlen]
  omega

theorem findClosestAux_empty_stable (cs : List String) (b : String)
    (h : ∀ c ∈ cs, 2 < c.length) :
    ErrorHandler.findClosestAux "" "" cs 8 (some b) = some b := by
  induction cs with
  | nil => rfl
  | cons c cs ih =>
    have hc := h c (by simp)
    have hne : ¬(jsToLower c = "") := jsToLower_ne_empty c (by omega)
    simp only [ErrorHandler.findClosestAux, if_neg hne, candScore_empty_target c hc]
    rw [if_neg (by omega)]
    exact ih (fun x hx => h x (List.mem_cons_of_mem _ hx))

/-- C10: for a non-empty candidate list whose candidates are all longer than two
characters, the empty-string query scores every candidate 0.8 (each contains the
empty string, no first-character or length bonus), so the first candidate is
returned and never replaced by an equal later score. -/
theorem c10_empty_query_first_candidate (c0 : String) (rest : List String)
    (h : ∀ c ∈ c0 :: rest, 2 < c.length) :
    ErrorHandler.findClosestMatch "" (c0 :: rest) = some c0 := by
  have h0 : 2 < c0.length := h c0 (by simp)
  have hne : ¬(jsToLower c0 = "") := jsToLower_ne_empty c0 (by omega)
  show ErrorHandler.findClosestAux "" (jsToLower "") (c0 :: rest) 0 none = some c0
  rw [show jsToLower "" = "" from rfl]
  simp only [ErrorHandler.findClosestAux, if_neg hne, candScore_empty_target c0 h0]
  rw [if_pos (by omega)]
  exact findClosestAux_empty_stable rest c0 (fun c hc => h c (List.mem_cons_of_mem _ hc))

/-- Witness for C10 at a concrete input. -/
theorem c10_witness :
    ErrorHandler.findClosestMatch "" ["abc", "defg"] = some "abc" :=
  c10_empty_query_first_candidate "abc" ["defg"] (by decide)

/-! ### Claim C7: spice-filter monotonicity -/

theorem jsLtOpt_none_left (x : Option Nat) : CulturalDatabaseImpl.jsLtOpt none x = false := by
  cases x <;> rfl

theorem jsLtOpt_one_to_four (fr : Option Nat)
    (h : CulturalDatabaseImpl.jsLtOpt (some 1) fr = false) :
    CulturalDatabaseImpl.jsLtOpt (some 4) fr = false := by
  cases fr with
  | none => rfl
  | some n =>
    simp [CulturalDatabaseImpl.jsLtOpt] at h ⊢
    omega

/-- C7: for a fixed city and fixed dietary and time preferences, the dishes
admitted at spice level `low` form a sublist (subset by count, content and
order) of those admitted at spice level `extreme`. -/
theorem c7_spice_filter_monotone (s : CulturalDatabaseImpl.CulturalStore) (city : String)
    (d t fm r : Option String) :
    List.Sublist
      (CulturalDatabaseImpl.getFoodInfo s city
        { spiceLevel := some "low", dietary := d, timeOfDay := t, formality := fm, region := r })
      (CulturalDatabaseImpl.getFoodInfo s city
        { spiceLevel := some "extreme", dietary := d, timeOfDay := t, formality := fm, region := r }) := by
  unfold CulturalDatabaseImpl.getFoodInfo
  by_cases hl : s.isLoaded = true
  · rw [if_pos hl, if_pos hl]
    apply List.monotone_filter_right
    intro food hp
    unfold CulturalDatabaseImpl.foodFilterPred at hp ⊢
    have hde :
        CulturalDatabaseImpl.dietaryClauses
            { spiceLevel := some "extreme", dietary := d, timeOfDay := t, formality := fm,
              region := r } food =
          CulturalDatabaseImpl.dietaryClauses
            { spiceLevel := some "low", dietary := d, timeOfDay := t, formality := fm,
              region := r } food := rfl
    rw [hde]
    cases hdc :
        CulturalDatabaseImpl.dietaryClauses
          { spiceLevel := some "low", dietary := d, timeOfDay := t, formality := fm,
            region := r } food with
    | some b =>
      rw [hdc] at hp
      exact hp
    | none =>
      rw [hdc] at hp
      simp only at hp ⊢
      have hlow : ((some "low" : Option String).bind CulturalDatabaseImpl.spiceLevels) = some 1 := rfl
      have hext : ((some "extreme" : Option String).bind CulturalDatabaseImpl.spiceLevels) = some 4 := rfl
      rw [hlow] at hp
      rw [hext]
      by_cases hlt :
          CulturalDatabaseImpl.jsLtOpt (some 1)
            (CulturalDatabaseImpl.spiceLevels food.spiceLevel) = true
      · rw [if_pos hlt] at hp
        exact absurd hp (by simp)
      · have hlt4 := jsLtOpt_one_to_four _ (Bool.eq_false_iff.mpr hlt)
        rw [if_neg hlt] at hp
        rw [if_neg (by simp [hlt4])]
        exact hp
  · rw [if_neg hl, if_neg hl]

/-! ### Claim C9: absent or invalid spice preference admits every dish -/

/-- C9: when the requested spice level is absent or not one of the four ranked
values, the rank lookup is undefined, the `<` comparison is always false, and the
result is filtered by the dietary and time-of-day conditions only. -/
theorem c9_undefined_spice_rank_admits_all (s : CulturalDatabaseImpl.CulturalStore)
    (city : String) (p : UserPreferences)
    (hl : s.isLoaded = true)
    (hs : p.spiceLevel.bind CulturalDatabaseImpl.spiceLevels = none) :
    CulturalDatabaseImpl.getFoodInfo s city p =
      ((jsMapGet s.foodData (jsToLower city)).getD []).filter
        (CulturalDatabaseImpl.dietaryTimePred p) := by
  unfold CulturalDatabaseImpl.getFoodInfo
  rw [if_pos hl]
  apply List.filter_congr
  intro food _
  unfold CulturalDatabaseImpl.foodFilterPred CulturalDatabaseImpl.dietaryTimePred
  cases hdc : CulturalDatabaseImpl.dietaryClauses p food with
  | some b => rfl
  | none =>
    simp only
    rw [hs, jsLtOpt_none_left]
    simp

/-- Witness for C9 at the hardcoded store with empty preferences. -/
theorem c9_witness :
    CulturalDatabaseImpl.getFoodInfo CulturalDatabaseImpl.hardcodedStore "Guntur" noPrefs =
      ((jsMapGet CulturalDatabaseImpl.hardcodedStore.foodData (jsToLower "Guntur")).getD []).filter
        (CulturalDatabaseImpl.dietaryTimePred noPrefs) :=
  c9_undefined_spice_rank_admits_all CulturalDatabaseImpl.hardcodedStore "Guntur" noPrefs
    (by decide) (by decide)

/-! ### Claim C8: unknown mood maps to the comfort-food default -/

/-- C8: any mood whose lowercase-trimmed form is not one of the five table keys
yields the fixed comfort-food default (Pappu with Avakaya, medium spice,
non-empty reasoning and cultural context), and the function is total. -/
theorem c8_unknown_mood_default (emotion : String)
    (h : jsTrim (jsToLower emotion) ∉ ["sad", "sick", "happy", "angry", "tired"]) :
    EmotionFoodMapperImpl.mapEmotionToFood emotion = EmotionFoodMapperImpl.comfortFoodDefault ∧
    (EmotionFoodMapperImpl.mapEmotionToFood emotion).food = "Pappu with Avakaya" ∧
    (EmotionFoodMapperImpl.mapEmotionToFood emotion).spiceLevel = "medium" ∧
    (EmotionFoodMapperImpl.mapEmotionToFood emotion).reasoning ≠ "" ∧
    (EmotionFoodMapperImpl.mapEmotionToFood emotion).culturalContext ≠ "" := by
  have h5 : ¬(jsTrim (jsToLower emotion) = "sad") ∧ ¬(jsTrim (jsToLower emotion) = "sick") ∧
      ¬(jsTrim (jsToLower emotion) = "happy") ∧ ¬(jsTrim (jsToLower emotion) = "angry") ∧
      ¬(jsTrim (jsToLower emotion) = "tired") := by
    simpa [not_or] using h
  obtain ⟨h1, h2, h3, h4, h5⟩ := h5
  have hget :
      jsMapGet EmotionFoodMapperImpl.emotionMappings (jsTrim (jsToLower emotion)) = none := by
    simp [EmotionFoodMapperImpl.emotionMappings, jsMapGet,
      Ne.symm h1, Ne.symm h2, Ne.symm h3, Ne.symm h4, Ne.symm h5]
  have hmap :
      EmotionFoodMapperImpl.mapEmotionToFood emotion = EmotionFoodMapperImpl.comfortFoodDefault := by
    unfold EmotionFoodMapperImpl.mapEmotionToFood
    simp only [hget]
  refine ⟨hmap, ?_, ?_, ?_, ?_⟩ <;> rw [hmap] <;> decide

/-- Witness for C8 at the concrete mood `" Confused "`. -/
theorem c8_witness :
    EmotionFoodMapperImpl.mapEmotionToFood " Confused " = EmotionFoodMapperImpl.comfortFoodDefault ∧
    (EmotionFoodMapperImpl.mapEmotionToFood " Confused ").food = "Pappu with Avakaya" ∧
    (EmotionFoodMapperImpl.mapEmotionToFood " Confused ").spiceLevel = "medium" ∧
    (EmotionFoodMapperImpl.mapEmotionToFood " Confused ").reasoning ≠ "" ∧
    (EmotionFoodMapperImpl.mapEmotionToFood " Confused ").culturalContext ≠ "" :=
  c8_unknown_mood_default " Confused " (by decide)

/-! ### Claim C4: lookups on absent keys -/

/-- C4 (amended): on an absent key the slang, festival and emotion accessors
return null and the food accessor returns the empty list; none of them throws
(the embedded accessors are total, and the only internal throw — the not-loaded
guard — is caught and converted to the same miss value). -/
theorem c4_absent_key_lookups (s : CulturalDatabaseImpl.CulturalStore)
    (term city festival emotion : String) (p : UserPreferences)
    (hl : s.isLoaded = true)
    (h1 : jsMapGet s.slangData (jsToLower term) = none)
    (h2 : jsMapGet s.foodData (jsToLower city) = none)
    (h3 : jsMapGet s.festivalData (jsToLower festival) = none)
    (h4 : jsMapGet s.emotionFoodData (jsToLower emotion) = none) :
    CulturalDatabaseImpl.getSlangInfo s term = none ∧
    CulturalDatabaseImpl.getFoodInfo s city p = [] ∧
    CulturalDatabaseImpl.getFestivalInfo s festival = none ∧
    CulturalDatabaseImpl.getEmotionFoodMapping s emotion = none := by
  refine ⟨?_, ?_, ?_, ?_⟩
  · simp [CulturalDatabaseImpl.getSlangInfo, hl, h1]
  · simp [CulturalDatabaseImpl.getFoodInfo, hl, h2]
  · simp [CulturalDatabaseImpl.getFestivalInfo, hl, h3]
  · simp [CulturalDatabaseImpl.getEmotionFoodMapping, hl, h4]

/-- Counterexample for C4 as stated: on an absent city the food accessor does not
return a null value at all — it returns the empty list. -/
theorem c4_counterexample :
    jsMapGet CulturalDatabaseImpl.hardcodedStore.foodData (jsToLower "atlantis") = none ∧
    CulturalDatabaseImpl.getFoodInfo CulturalDatabaseImpl.hardcodedStore "atlantis" noPrefs =
      ([] : List FoodInfo) := by
  constructor
  · decide
  · decide

/-- Witness for the amended C4 at the hardcoded store and an absent key. -/
theorem c4_witness :
    CulturalDatabaseImpl.getSlangInfo CulturalDatabaseImpl.hardcodedStore "zzz" = none ∧
    CulturalDatabaseImpl.getFoodInfo CulturalDatabaseImpl.hardcodedStore "zzz" noPrefs = [] ∧
    CulturalDatabaseImpl.getFestivalInfo CulturalDatabaseImpl.hardcodedStore "zzz" = none ∧
    CulturalDatabaseImpl.getEmotionFoodMapping CulturalDatabaseImpl.hardcodedStore "zzz" = none :=
  c4_absent_key_lookups CulturalDatabaseImpl.hardcodedStore "zzz" "zzz" "zzz" "zzz" noPrefs
    (by decide) (by decide) (by decide) (by decide) (by decide)

/-! ### Claim C1: fallback after completeness failure -/

theorem emotionFoodData_loadHardcodedData (s : CulturalDatabaseImpl.CulturalStore) :
    (CulturalDatabaseImpl.loadHardcodedData s).emotionFoodData =
      CulturalDatabaseImpl.emotionMappings.foldl
        (fun m mapping => jsMapSet m (jsToLower mapping.emotion) mapping)
        s.emotionFoodData := rfl

/-- C1 (amended): when the parsed data fails completeness validation, the
hardcoded set is loaded on top of the already-loaded parsed data (same-key
entries overwritten, other parsed entries retained); in particular the `tired`
lookup afterwards returns the hardcoded record, and any emotion key outside the
hardcoded five still resolves against the parsed data. -/
theorem c1_fallback_merges_hardcoded (parsed : ParsedCulturalData)
    (hinv : (DataValidator.validateDataCompleteness parsed).isValid = false) :
    CulturalDatabaseImpl.getEmotionFoodMapping
        (CulturalDatabaseImpl.loadCulturalData parsed) "tired" = some hardcodedTiredMapping ∧
    ∀ e : String, jsToLower e ∉ hardcodedEmotionKeys →
      CulturalDatabaseImpl.getEmotionFoodMapping (CulturalDatabaseImpl.loadCulturalData parsed) e =
        jsMapGet
          (CulturalDatabaseImpl.loadFromParsedData CulturalDatabaseImpl.initialStore
            parsed).emotionFoodData
          (jsToLower e) := by
  have hbuild : CulturalDatabaseImpl.loadCulturalData parsed =
      { CulturalDatabaseImpl.loadHardcodedData
          (CulturalDatabaseImpl.loadFromParsedData CulturalDatabaseImpl.initialStore parsed) with
        isLoaded := true } := by
    unfold CulturalDatabaseImpl.loadCulturalData
    simp [hinv]
  constructor
  · rw [hbuild]
    show jsMapGet
        (CulturalDatabaseImpl.loadHardcodedData
          (CulturalDatabaseImpl.loadFromParsedData CulturalDatabaseImpl.initialStore
            parsed)).emotionFoodData
        (jsToLower "tired") = some hardcodedTiredMapping
    rw [emotionFoodData_loadHardcodedData]
    exact jsMapGet_jsMapSet_self _ _ _
  · intro e he
    rw [hbuild]
    show jsMapGet
        (CulturalDatabaseImpl.loadHardcodedData
          (CulturalDatabaseImpl.loadFromParsedData CulturalDatabaseImpl.initialStore
            parsed)).emotionFoodData
        (jsToLower e) = _
    rw [emotionFoodData_loadHardcodedData]
    exact jsMapGet_foldl_jsMapSet_not_mem (fun m => m.emotion)
      CulturalDatabaseImpl.emotionMappings _ _ (by simpa [hardcodedEmotionKeys] using he)

/-- Counterexample for C1 as stated: a document whose parse fails completeness
validation, after which the store still answers for the parsed-only key `bored`
— its data is NOT exactly the hardcoded set. -/
theorem c1_counterexample :
    (DataValidator.validateDataCompleteness
      (ProductMdParser.parseContent docBoredOnly)).isValid = false ∧
    CulturalDatabaseImpl.getEmotionFoodMapping
      (CulturalDatabaseImpl.storeFromContent docBoredOnly) "bored" ≠ none ∧
    CulturalDatabaseImpl.getEmotionFoodMapping CulturalDatabaseImpl.hardcodedStore "bored" = none ∧
    CulturalDatabaseImpl.storeFromContent docBoredOnly ≠ CulturalDatabaseImpl.hardcodedStore := by
  refine ⟨by decide, by decide, by decide, ?_⟩
  intro h
  have := congrArg (fun st => CulturalDatabaseImpl.getEmotionFoodMapping st "bored") h
  revert this
  decide

/-- Witness for the amended C1 at concretely empty parsed data. -/
theorem c1_witness :
    (DataValidator.validateDataCompleteness emptyParsed).isValid = false ∧
    CulturalDatabaseImpl.getEmotionFoodMapping
      (CulturalDatabaseImpl.loadCulturalData emptyParsed) "tired" = some hardcodedTiredMapping :=
  ⟨by decide, (c1_fallback_merges_hardcoded emptyParsed (by decide)).1⟩

/-! ### Claim C3: the parser emits only validator-accepted records -/

theorem validateSlangInfo_of_mem_parseSlangList (content : String) (terms : List String)
    (r : SlangInfo) (h : r ∈ ProductMdParser.parseSlangList content terms) :
    DataValidator.validateSlangInfo r = true := by
  induction terms with
  | nil => simp [ProductMdParser.parseSlangList] at h
  | cons t ts ih =>
    unfold ProductMdParser.parseSlangList at h
    split at h
    · split_ifs at h with hv
      · rcases List.mem_cons.mp h with rfl | h2
        · exact hv
        · exact ih h2
      · exact ih h
    · exact ih h

theorem validateFoodInfo_of_mem_parseFoodLines (lines : List String) :
    ∀ (city : String) (r : FoodInfo), r ∈ ProductMdParser.parseFoodLines city lines →
      DataValidator.validateFoodInfo r = true := by
  induction lines with
  | nil =>
    intro city r h
    simp [ProductMdParser.parseFoodLines] at h
  | cons line rest ih =>
    intro city r h
    unfold ProductMdParser.parseFoodLines at h
    split_ifs at h with h1 h2 h3
    · exact ih city r h
    · exact ih _ r h
    · split at h
      · split_ifs at h with hv
        · rcases List.mem_cons.mp h with rfl | h4
          · exact hv
          · exact ih city r h4
        · exact ih city r h
      · exact ih city r h
    · exact ih city r h

theorem validateFestivalInfo_of_flushFestival (name : String)
    (d : ProductMdParser.FestivalDraft) (f : FestivalInfo)
    (h : ProductMdParser.flushFestival name d = some f) :
    DataValidator.validateFestivalInfo f = true := by
  unfold ProductMdParser.flushFestival at h
  split_ifs at h with h1 h2
  obtain rfl := (Option.some.inj h).symm
  exact h2

theorem validateFestivalInfo_of_mem_parseFestivalLines (lines : List String) :
    ∀ (cf : String) (d : ProductMdParser.FestivalDraft) (r : FestivalInfo),
      r ∈ ProductMdParser.parseFestivalLines cf d lines →
      DataValidator.validateFestivalInfo r = true := by
  induction lines with
  | nil =>
    intro cf d r h
    unfold ProductMdParser.parseFestivalLines at h
    cases hf : ProductMdParser.flushFestival cf d with
    | none =>
      rw [hf] at h
      simp at h
    | some f =>
      rw [hf] at h
      rcases List.mem_singleton.mp h with rfl
      exact validateFestivalInfo_of_flushFestival cf d r hf
  | cons line rest ih =>
    intro cf d r h
    unfold ProductMdParser.parseFestivalLines at h
    split_ifs at h with h1 h2 h3
    · exact ih cf d r h
    · rcases List.mem_append.mp h with hleft | hright
      · cases hf : ProductMdParser.flushFestival cf d with
        | none =>
          rw [hf] at hleft
          simp at hleft
        | some f =>
          rw [hf] at hleft
          rcases List.mem_singleton.mp hleft with rfl
          exact validateFestivalInfo_of_flushFestival cf d r hf
      · exact ih line ProductMdParser.emptyDraft r hright
    · exact ih cf _ r h
    · exact ih cf d r h

theorem validateEmotionFoodMapping_of_mem_parseEmotionLines (lines : List String) :
    ∀ r : EmotionFoodMapping, r ∈ ProductMdParser.parseEmotionLines lines →
      DataValidator.validateEmotionFoodMapping r = true := by
  induction lines with
  | nil =>
    intro r h
    simp [ProductMdParser.parseEmotionLines] at h
  | cons line rest ih =>
    intro r h
    unfold ProductMdParser.parseEmotionLines at h
    split_ifs at h with h1 h2
    · exact ih r h
    · split at h
      · split_ifs at h with hv
        · rcases List.mem_cons.mp h with rfl | h3
          · exact hv
          · exact ih r h3
        · exact ih r h
      · exact ih r h
    · exact ih r h

/-- C3: every record in each of the four collections returned by the parser
satisfies the corresponding record validator (each emission site is guarded by
the validator, for every input document). -/
theorem c3_parser_emits_valid_records (content : String) :
    (∀ r ∈ (ProductMdParser.parseContent content).slang,
      DataValidator.validateSlangInfo r = true) ∧
    (∀ r ∈ (ProductMdParser.parseContent content).food,
      DataValidator.validateFoodInfo r = true) ∧
    (∀ r ∈ (ProductMdParser.parseContent content).festivals,
      DataValidator.validateFestivalInfo r = true) ∧
    (∀ r ∈ (ProductMdParser.parseContent content).emotions,
      DataValidator.validateEmotionFoodMapping r = true) :=
  ⟨fun r h => validateSlangInfo_of_mem_parseSlangList _ _ r h,
   fun r h => validateFoodInfo_of_mem_parseFoodLines _ _ r h,
   fun r h => validateFestivalInfo_of_mem_parseFestivalLines _ _ _ r h,
   fun r h => validateEmotionFoodMapping_of_mem_parseEmotionLines _ r h⟩

set_option maxRecDepth 8192 in
/-- Witness for C3: a document producing one record of each kind, each of which
the corresponding validator accepts. -/
theorem c3_witness :
    DataValidator.validateSlangInfo
      ((ProductMdParser.parseContent docAllSections).slang.getD 0 dummySlang) = true ∧
    DataValidator.validateFoodInfo
      ((ProductMdParser.parseContent docAllSections).food.getD 0 dummyFood) = true ∧
    DataValidator.validateFestivalInfo
      ((ProductMdParser.parseContent docAllSections).festivals.getD 0 dummyFestival) = true ∧
    DataValidator.validateEmotionFoodMapping
      ((ProductMdParser.parseContent docAllSections).emotions.getD 0 dummyEmotion) = true :=
  ⟨(c3_parser_emits_valid_records docAllSections).1 _ (by decide),
   (c3_parser_emits_valid_records docAllSections).2.1 _ (by decide),
   (c3_parser_emits_valid_records docAllSections).2.2.1 _ (by decide),
   (c3_parser_emits_valid_records docAllSections).2.2.2 _ (by decide)⟩

/-! ### Claim C5: slang-term formality and discard rules -/

/-- C5: for every extracted slang sub-block, a term whose extracted meaning or
emotional intent is empty is discarded, and an accepted record's formality level
is `formal` exactly when the sub-block text contains the word `formal`
(lowercased substring test), else `informal`. -/
theorem c5_slang_formality_and_discard (content term block : String)
    (hblock : ProductMdParser.findTermBlock content term = some block) :
    ((ProductMdParser.extractMeaning block = "" ∨ ProductMdParser.extractEmotion block = "") →
      ProductMdParser.parseSlangTerm content term = none) ∧
    (∀ info : SlangInfo, ProductMdParser.parseSlangTerm content term = some info →
      info.formalityLevel =
        (if strContains (jsToLower block) "formal" then "formal" else "informal")) := by
  have hredux : ProductMdParser.parseSlangTerm content term =
      (if ProductMdParser.extractMeaning block = "" || ProductMdParser.extractEmotion block = ""
       then none
       else some (ProductMdParser.buildSlangInfo term block)) := by
    unfold ProductMdParser.parseSlangTerm
    rw [hblock]
  constructor
  · intro hempty
    rw [hredux, if_pos (by rcases hempty with he | he <;> simp [he])]
  · intro info hinfo
    rw [hredux] at hinfo
    split_ifs at hinfo with hc
    obtain rfl := (Option.some.inj hinfo).symm
    rfl

/-! ### Claim C2: formatter output policy

The amended guarantee is the terminal-punctuation clause, proved for every
input and every random phrase choice; the vocabulary and technical-term clauses
are refuted by the counterexample below. The proof tracks the last character
through `addCulturalClosing` (which always leaves `!` or `.` at the end) and
through every replacement pass of `improveFlow`. -/

theorem getLast?_cons_of_getLast? {α : Type} (x : α) (M : List α) {c : α}
    (h : M.getLast? = some c) : (x :: M).getLast? = some c := by
  cases M with
  | nil => simp at h
  | cons y t =>
    rw [List.getLast?_cons_cons]
    exact h

theorem getLast?_of_getLast?_drop {α : Type} (n : Nat) (l : List α) {c : α}
    (h : (l.drop n).getLast? = some c) : l.getLast? = some c := by
  have hne : l.drop n ≠ [] := by
    intro he
    rw [he] at h
    simp at h
  conv_lhs => rw [← List.take_append_drop n l]
  rw [List.getLast?_append_of_ne_nil _ hne]
  exact h

theorem tailOkAfter_getLast (n : Nat) (l : List Char)
    (h : ResponseFormatter.tailOkAfter n l = true) :
    (l.drop n).getLast? = some '!' ∨ (l.drop n).getLast? = some '.' := by
  unfold ResponseFormatter.tailOkAfter at h
  cases hg : (l.drop n).getLast? with
  | none =>
    rw [hg] at h
    exact absurd h (by simp)
  | some d =>
    rw [hg] at h
    simp at h
    rcases h.1 with hd | hd
    · left
      rw [hd]
    · right
      rw [hd]

theorem closingScanAux_getLast (l : List Char) :
    ∀ b : Bool, ResponseFormatter.closingScanAux b l = true →
      l.getLast? = some '!' ∨ l.getLast? = some '.' := by
  induction l with
  | nil =>
    intro b h
    exact absurd h (by simp [ResponseFormatter.closingScanAux])
  | cons c rest ih =>
    intro b h
    unfold ResponseFormatter.closingScanAux at h
    rcases Bool.or_eq_true _ _ |>.mp h with hl | hr
    · by_cases hb : b = true
      · rw [if_pos hb] at hl
        exact absurd hl (by simp)
      · rw [if_neg hb] at hl
        cases hm : ResponseFormatter.matchLenAt ResponseFormatter.closingTerms (c :: rest) with
        | none =>
          rw [hm] at hl
          exact absurd hl (by simp)
        | some n =>
          rw [hm] at hl
          rcases tailOkAfter_getLast n (c :: rest) hl with h1 | h1
          · left
            exact getLast?_of_getLast?_drop n _ h1
          · right
            exact getLast?_of_getLast?_drop n _ h1
    · rcases ih _ hr with h1 | h1
      · left
        exact getLast?_cons_of_getLast? c rest h1
      · right
        exact getLast?_cons_of_getLast? c rest h1

theorem pick_culturalClosings_getLast (cat : Category) (cc : Nat) :
    (ResponseFormatter.pick (ResponseFormatter.culturalClosings cat) cc).data.getLast? =
      some '!' := by
  have h3 : cc % 3 = 0 ∨ cc % 3 = 1 ∨ cc % 3 = 2 := by omega
  cases cat <;> rcases h3 with h | h | h <;>
    simp [ResponseFormatter.pick, ResponseFormatter.culturalClosings, h]

theorem addCulturalClosing_getLast (content : String) (cat : Category) (cc : Nat) :
    (ResponseFormatter.addCulturalClosing content cat cc).data.getLast? = some '!' ∨
    (ResponseFormatter.addCulturalClosing content cat cc).data.getLast? = some '.' := by
  unfold ResponseFormatter.addCulturalClosing
  by_cases ht : ResponseFormatter.closingRegexTest content = true
  · rw [if_pos ht]
    exact closingScanAux_getLast content.data false ht
  · rw [if_neg ht]
    left
    have hrc := pick_culturalClosings_getLast cat cc
    have hne : (ResponseFormatter.pick (ResponseFormatter.culturalClosings cat) cc).data ≠ [] := by
      intro he
      rw [he] at hrc
      simp at hrc
    simp only [String.data_append]
    rw [List.getLast?_append_of_ne_nil _ hne]
    exact hrc

theorem dropWhile_getLast {α : Type} (p : α → Bool) (l : List α) {c : α}
    (h : l.getLast? = some c) (hpc : p c = false) :
    (l.dropWhile p).getLast? = some c := by
  induction l with
  | nil => simp at h
  | cons d rest ih =>
    cases hr : rest with
    | nil =>
      subst hr
      simp at h
      subst h
      simp [List.dropWhile, hpc]
    | cons y t =>
      subst hr
      rw [List.getLast?_cons_cons] at h
      by_cases hd : p d = true
      · rw [List.dropWhile_cons_of_pos hd]
        exact ih h
      · rw [List.dropWhile_cons_of_neg hd]
        exact getLast?_cons_of_getLast? d _ h

theorem jsTrimCL_getLast (l : List Char) {c : Char} (h : l.getLast? = some c)
    (hc : isWsChar c = false) : (jsTrimCL l).getLast? = some c := by
  have h1 : (l.dropWhile isWsChar).getLast? = some c := dropWhile_getLast _ l h hc
  have h2 : (l.dropWhile isWsChar).reverse.head? = some c := by
    rw [List.head?_reverse]
    exact h1
  obtain ⟨t, hrv⟩ : ∃ t, (l.dropWhile isWsChar).reverse = c :: t := by
    cases hx : (l.dropWhile isWsChar).reverse with
    | nil =>
      rw [hx] at h2
      simp at h2
    | cons d t =>
      rw [hx] at h2
      simp at h2
      exact ⟨t, by rw [h2]⟩
  unfold jsTrimCL
  rw [hrv, List.dropWhile_cons_of_neg (by simp [hc]), ← hrv, List.reverse_reverse]
  exact h1

theorem collapseWsAux_getLast (l : List Char) {c : Char} (h : l.getLast? = some c)
    (hc : isWsChar c = false) :
    ∀ b : Bool, (ResponseFormatter.collapseWsAux b l).getLast? = some c := by
  induction l with
  | nil => simp at h
  | cons d rest ih =>
    intro b
    cases hr : rest with
    | nil =>
      subst hr
      simp at h
      subst h
      simp [ResponseFormatter.collapseWsAux, hc]
    | cons y t =>
      subst hr
      rw [List.getLast?_cons_cons] at h
      unfold ResponseFormatter.collapseWsAux
      by_cases hd : isWsChar d = true
      · rw [if_pos hd]
        by_cases hb : b = true
        · rw [if_pos hb]
          exact ih h true
        · rw [if_neg hb]
          exact getLast?_cons_of_getLast? ' ' _ (ih h true)
      · rw [if_neg hd]
        exact getLast?_cons_of_getLast? d _ (ih h false)

theorem stripWsBeforePunctAux_getLast (l : List Char) {c : Char} (h : l.getLast? = some c)
    (hc : ResponseFormatter.isPunct4 c = true) :
    ∀ pending : List Char,
      (ResponseFormatter.stripWsBeforePunctAux pending l).getLast? = some c := by
  have hcw : isWsChar c = false := by
    have hc2 := hc
    simp only [ResponseFormatter.isPunct4, Bool.or_eq_true, decide_eq_true_eq] at hc2
    rcases hc2 with ((rfl | rfl) | rfl) | rfl <;> rfl
  induction l with
  | nil => simp at h
  | cons d rest ih =>
    intro pending
    cases hr : rest with
    | nil =>
      subst hr
      simp at h
      subst h
      unfold ResponseFormatter.stripWsBeforePunctAux
      rw [if_neg (by simp [hcw]), if_pos hc]
      rfl
    | cons y t =>
      subst hr
      rw [List.getLast?_cons_cons] at h
      unfold ResponseFormatter.stripWsBeforePunctAux
      by_cases hd : isWsChar d = true
      · rw [if_pos hd]
        exact ih h _
      · rw [if_neg hd]
        by_cases hp : ResponseFormatter.isPunct4 d = true
        · rw [if_pos hp]
          exact getLast?_cons_of_getLast? d _ (ih h [])
        · rw [if_neg hp]
          have htail : (d :: ResponseFormatter.stripWsBeforePunctAux [] (y :: t)).getLast? =
              some c := getLast?_cons_of_getLast? d _ (ih h [])
          have hne : d :: ResponseFormatter.stripWsBeforePunctAux [] (y :: t) ≠ [] := by
            simp
          rw [List.getLast?_append_of_ne_nil _ hne]
          exact htail

theorem spacePunctCapAux_getLast (l : List Char) {c : Char} (h : l.getLast? = some c) :
    ∀ st : Option Char,
      (ResponseFormatter.spacePunctCapAux st l).getLast? = some c := by
  induction l with
  | nil => simp at h
  | cons d rest ih =>
    intro st
    cases hr : rest with
    | nil =>
      subst hr
      simp at h
      subst h
      cases st with
      | none =>
        unfold ResponseFormatter.spacePunctCapAux
        by_cases hp : ResponseFormatter.isPunct4 d = true
        · rw [if_pos hp]
          rfl
        · rw [if_neg hp]
          rfl
      | some pc =>
        unfold ResponseFormatter.spacePunctCapAux
        by_cases hu : d.isUpper = true
        · rw [if_pos hu]
          rfl
        · rw [if_neg hu]
          by_cases hp : ResponseFormatter.isPunct4 d = true
          · rw [if_pos hp]
            rfl
          · rw [if_neg hp]
            rfl
    | cons y t =>
      subst hr
      rw [List.getLast?_cons_cons] at h
      cases st with
      | none =>
        unfold ResponseFormatter.spacePunctCapAux
        by_cases hp : ResponseFormatter.isPunct4 d = true
        · rw [if_pos hp]
          exact ih h _
        · rw [if_neg hp]
          exact getLast?_cons_of_getLast? d _ (ih h none)
      | some pc =>
        unfold ResponseFormatter.spacePunctCapAux
        by_cases hu : d.isUpper = true
        · rw [if_pos hu]
          exact getLast?_cons_of_getLast? pc _
            (getLast?_cons_of_getLast? ' ' _ (getLast?_cons_of_getLast? d _ (ih h none)))
        · rw [if_neg hu]
          by_cases hp : ResponseFormatter.isPunct4 d = true
          · rw [if_pos hp]
            exact getLast?_cons_of_getLast? pc _ (ih h _)
          · rw [if_neg hp]
            exact getLast?_cons_of_getLast? pc _
              (getLast?_cons_of_getLast? d _ (ih h none))

theorem capAfterAux_getLast (p : Char) (l : List Char) {c : Char} (h2 : isWsChar c = false)
    (h3 : c.isLower = false) :
    ∀ st : Option (List Char), l.getLast? = some c →
      (ResponseFormatter.capAfterAux p st l).getLast? = some c := by
  induction l with
  | nil =>
    intro st h
    simp at h
  | cons d rest ih =>
    intro st h
    cases hr : rest with
    | nil =>
      subst hr
      simp at h
      subst h
      cases st with
      | none =>
        unfold ResponseFormatter.capAfterAux
        by_cases hp : d = p
        · rw [if_pos hp]
          subst hp
          rfl
        · rw [if_neg hp]
          rfl
      | some buf =>
        unfold ResponseFormatter.capAfterAux
        rw [if_neg (by simp [h2]), if_neg (by simp [h3])]
        by_cases hp : d = p
        · rw [if_pos hp]
          show (p :: (buf.reverse ++ [p])).getLast? = some d
          rw [hp]
          exact getLast?_cons_of_getLast? p _
            (by rw [List.getLast?_append_of_ne_nil _ (by simp)]; rfl)
        · rw [if_neg hp]
          show (p :: (buf.reverse ++ d :: ResponseFormatter.capAfterAux p none [])).getLast? =
            some d
          exact getLast?_cons_of_getLast? p _
            (by rw [List.getLast?_append_of_ne_nil _ (by simp)]; rfl)
    | cons y t =>
      subst hr
      rw [List.getLast?_cons_cons] at h
      cases st with
      | none =>
        unfold ResponseFormatter.capAfterAux
        by_cases hp : d = p
        · rw [if_pos hp]
          exact ih _ h
        · rw [if_neg hp]
          exact getLast?_cons_of_getLast? d _ (ih none h)
      | some buf =>
        unfold ResponseFormatter.capAfterAux
        by_cases hw : isWsChar d = true
        · rw [if_pos hw]
          exact ih _ h
        · rw [if_neg hw]
          by_cases hlo : d.isLower = true
          · rw [if_pos hlo]
            exact getLast?_cons_of_getLast? p _
              (getLast?_cons_of_getLast? ' ' _
                (getLast?_cons_of_getLast? d.toUpper _ (ih none h)))
          · rw [if_neg hlo]
            by_cases hp : d = p
            · rw [if_pos hp]
              have htail := ih (some []) h
              have hne : ResponseFormatter.capAfterAux p (some []) (y :: t) ≠ [] := by
                intro he
                rw [he] at htail
                simp at htail
              refine getLast?_cons_of_getLast? p _ ?_
              simp only [List.append_eq]
              rw [List.getLast?_append_of_ne_nil _ hne]
              exact htail
            · rw [if_neg hp]
              refine getLast?_cons_of_getLast? p _ ?_
              simp only [List.append_eq]
              rw [List.getLast?_append_of_ne_nil _ (by simp)]
              exact getLast?_cons_of_getLast? d _ (ih none h)

theorem improveFlow_getLast (s : String) {c : Char} (h : s.data.getLast? = some c)
    (hbang : c = '!' ∨ c = '.') :
    (ResponseFormatter.improveFlow s).data.getLast? = some c := by
  have hw : isWsChar c = false := by rcases hbang with rfl | rfl <;> rfl
  have hlo : c.isLower = false := by rcases hbang with rfl | rfl <;> rfl
  have hup : c.toUpper = c := by rcases hbang with rfl | rfl <;> rfl
  have hpunct : ResponseFormatter.isPunct4 c = true := by rcases hbang with rfl | rfl <;> rfl
  have h1 := collapseWsAux_getLast s.data h hw false
  have h2 := stripWsBeforePunctAux_getLast _ h1 hpunct []
  have h3 := spacePunctCapAux_getLast _ h2 none
  have h4 := capAfterAux_getLast '.' _ hw hlo none h3
  have h5 := capAfterAux_getLast '!' _ hw hlo none h4
  have h6 := capAfterAux_getLast '?' _ hw hlo none h5
  have h7 := jsTrimCL_getLast _ h6 hw
  obtain ⟨d, t, hdt⟩ : ∃ d t,
      jsTrimCL (ResponseFormatter.capAfterAux '?' none
        (ResponseFormatter.capAfterAux '!' none
          (ResponseFormatter.capAfterAux '.' none
            (ResponseFormatter.spacePunctCapAux none
              (ResponseFormatter.stripWsBeforePunctAux []
                (ResponseFormatter.collapseWsAux false s.data)))))) = d :: t := by
    cases hx : jsTrimCL (ResponseFormatter.capAfterAux '?' none
        (ResponseFormatter.capAfterAux '!' none
          (ResponseFormatter.capAfterAux '.' none
            (ResponseFormatter.spacePunctCapAux none
              (ResponseFormatter.stripWsBeforePunctAux []
                (ResponseFormatter.collapseWsAux false s.data)))))) with
    | nil =>
      rw [hx] at h7
      simp at h7
    | cons d t => exact ⟨d, t, rfl⟩
  rw [hdt] at h7
  have himp : ResponseFormatter.improveFlow s = String.mk (d.toUpper :: t) := by
    simp only [ResponseFormatter.improveFlow]
    rw [hdt]
  rw [himp]
  show (d.toUpper :: t).getLast? = some c
  cases t with
  | nil =>
    simp at h7
    subst h7
    simp [hup]
  | cons y u =>
    rw [List.getLast?_cons_cons]
    rw [List.getLast?_cons_cons] at h7
    exact h7

/-- C2 (amended): for every input content, word list, category, region and
random phrase choices, the formatted output ends with `.`, `!` or `?` (the
closing step always leaves a terminal `!` or `.`, and every later replacement
pass preserves it); the vocabulary and technical-term clauses of the original
claim do not hold and are refuted by the counterexample. -/
theorem c2_formatter_terminal_punctuation (response : CulturalResponse)
    (openChoice closeChoice : Nat) :
    (ResponseFormatter.formatResponse response openChoice closeChoice).data.getLast? = some '.' ∨
    (ResponseFormatter.formatResponse response openChoice closeChoice).data.getLast? = some '!' ∨
    (ResponseFormatter.formatResponse response openChoice closeChoice).data.getLast? = some '?' := by
  have hA := addCulturalClosing_getLast
    (ResponseFormatter.removeTechnicalTerms
      (ResponseFormatter.ensureTeluguIntegration
        (ResponseFormatter.addCulturalOpening response.content response.region openChoice)
        response.teluguWords))
    response.category closeChoice
  have hform : ResponseFormatter.formatResponse response openChoice closeChoice =
      ResponseFormatter.improveFlow
        (ResponseFormatter.addCulturalClosing
          (ResponseFormatter.removeTechnicalTerms
            (ResponseFormatter.ensureTeluguIntegration
              (ResponseFormatter.addCulturalOpening response.content response.region openChoice)
              response.teluguWords))
          response.category closeChoice) := rfl
  rw [hform]
  rcases hA with h | h
  · right
    left
    exact improveFlow_getLast _ h (Or.inl rfl)
  · left
    exact improveFlow_getLast _ h (Or.inr rfl)

set_option maxRecDepth 8192 in
/-- Counterexample for C2 as stated: with no supplied Telugu words and the
content `training API data`, the formatted output contains no fixed-vocabulary
word, while deleting `API` splices the denylisted phrase `training data` back
together, so the output still contains the technical term `training` and fails
the format validator. -/
theorem c2_counterexample :
    ResponseFormatter.hasTeluguWord (ResponseFormatter.formatResponse exResponse 0 0) = false ∧
    ResponseFormatter.hasTechnicalTerms (ResponseFormatter.formatResponse exResponse 0 0) = true ∧
    strContains (jsToLower (ResponseFormatter.formatResponse exResponse 0 0)) "training data" =
      true ∧
    (ResponseFormatter.validateResponseFormat
      (ResponseFormatter.formatResponse exResponse 0 0)).isValid = false := by
  refine ⟨by decide, by decide, by decide, by decide⟩

/-- Witness for C5: a sub-block containing `formal` yields a `formal` record, and
a sub-block with no emotional intent is discarded. -/
theorem c5_witness :
    slangInfoFormal.formalityLevel =
      (if strContains (jsToLower slangBlockFormal) "formal" then "formal" else "informal") ∧
    ProductMdParser.parseSlangTerm slangDocNoEmotion "Abba" = none :=
  ⟨(c5_slang_formality_and_discard slangDocFormal "Abba" slangBlockFormal (by decide)).2
      slangInfoFormal (by decide),
   (c5_slang_formality_and_discard slangDocNoEmotion "Abba" " Meaning: wow" (by decide)).1
      (Or.inr (by decide))⟩

end AG
